import Mathlib

/-!
Verification of the etcd-backup metrics relay.

A shallow embedding of `metrics/server.go` (the recorder `recordMetrics` and the
reporting handler `Server.handler`) and of `metrics/metrics.go` (the sender `Send`),
followed by the properties proved about them.

Conventions of the embedding

* Go `string` values and request bodies are sequences of Unicode scalar values
  (`String`, respectively `List Char`): text is taken to be valid UTF-8.
* Go `int64` values are `Int`; `inInt64` is the range of the machine type.
* The Prometheus vectors are finite maps from the value of the single label
  `tenant_cluster_id` to a series; a series that was never touched is absent (`none`).
  A counter series holds a natural number, a gauge series holds the `float64` it was
  last set to.  Every `float64` this program stores is the conversion of an `int64`,
  hence an integer, and is represented by that integer.
* Effects (registry updates, the response writer, the log, standard output, the
  outbound POST) are threaded explicitly.

Library code the two files call

* `encoding/json`: `Decoder.Decode` is modelled by `readTop` (the scanner: syntax of the
  first value of the input) and `unmarshal` (storing that value in a struct, with
  case-insensitive matching of keys and type errors); `Marshal` of the sender's struct
  is modelled by `jsonMarshal`.  The readers are recursive on a fuel argument;
  `readTopWith_fuel` shows that the fuel `readTop` gives them is never the reason for a
  result.
* `net/http`: `fmt.Fprint` on the response writer and `http.Error`; `http.Post` is a
  parameter of `Send`.
* `prometheus`: `With(labels).Inc()` and `With(labels).Set(x)` on a vector.
* `microerror.Mask` is a parameter of `Send`.
-/

namespace Metrics

/-! ## Machine numbers -/

/-- Range of the Go type `int64`. -/
def inInt64 (v : Int) : Prop := -(2 : Int) ^ 63 ≤ v ∧ v < (2 : Int) ^ 63

instance (v : Int) : Decidable (inInt64 v) := by
  unfold inInt64; exact inferInstance

/-- Number of low-order bits of `a` that do not fit a 53-bit significand
(`fuel` bounds the search; 64 is enough for every 64-bit magnitude). -/
def shiftFor : Nat → Nat → Nat
  | 0, _ => 0
  | fuel + 1, a => if a < 2 ^ 53 then 0 else shiftFor fuel (a / 2) + 1

/-- Rounding of a magnitude to the nearest number with a 53-bit significand, ties to
the even significand (IEEE 754 binary64, round-to-nearest-even). -/
def roundMagnitude (a : Nat) : Nat :=
  let e := shiftFor 64 a
  if e = 0 then a
  else
    let q := a / 2 ^ e
    let r := a % 2 ^ e
    let half := 2 ^ (e - 1)
    (if half < r ∨ (r = half ∧ q % 2 = 1) then q + 1 else q) * 2 ^ e

/-- The Go conversion `float64(v)` of an `int64`: the nearest binary64 value, which is
always an integer and is returned as such. -/
def float64 (v : Int) : Int :=
  if v < 0 then -((roundMagnitude v.natAbs : Nat) : Int) else ((roundMagnitude v.natAbs : Nat) : Int)

/-! ## Data model -/

/-- Modelled from the spec: the declaration of the struct `BackupMetrics` is missing
from the sources; its fields are the five that `recordMetrics` and `Send` read, with the
types the sender's `bodyType` gives them, and no JSON tags (the spec's example body uses
the Go field names as keys). -/
structure BackupMetrics where
  Successful : Bool
  BackupSizeMeasurement : Int
  CreationTimeMeasurement : Int
  EncryptionTimeMeasurement : Int
  UploadTimeMeasurement : Int
deriving DecidableEq

/-- All four measurements lie in the `int64` range. -/
def BackupMetrics.inRange (m : BackupMetrics) : Prop :=
  inInt64 m.BackupSizeMeasurement ∧ inInt64 m.CreationTimeMeasurement ∧
  inInt64 m.EncryptionTimeMeasurement ∧ inInt64 m.UploadTimeMeasurement

instance (m : BackupMetrics) : Decidable m.inRange := by
  unfold BackupMetrics.inRange; exact inferInstance

/-- A `prometheus.GaugeVec` with the single label `tenant_cluster_id`. -/
structure GaugeVec where
  series : String → Option Int

/-- A `prometheus.CounterVec` with the single label `tenant_cluster_id`. -/
structure CounterVec where
  series : String → Option Nat

/-- `g.With(labels).Set(x)`: the series of the label is created if absent and its value
is overwritten. -/
def GaugeVec.Set (g : GaugeVec) (label : String) (x : Int) : GaugeVec :=
  ⟨fun k => if k = label then some x else g.series k⟩

/-- Current value of a counter series; a series not yet created counts as zero, the
value it is created with. -/
def CounterVec.value (c : CounterVec) (label : String) : Nat :=
  (c.series label).getD 0

/-- `c.With(labels).Inc()`: the series of the label is created at zero if absent and
then incremented by one. -/
def CounterVec.Inc (c : CounterVec) (label : String) : CounterVec :=
  ⟨fun k => if k = label then some (c.value label + 1) else c.series k⟩

/-- The seven package-level vectors of `server.go`. -/
structure Registry where
  creationTime : GaugeVec
  encryptionTime : GaugeVec
  uploadTime : GaugeVec
  backupSize : GaugeVec
  attemptsCounter : CounterVec
  successCounter : CounterVec
  failureCounter : CounterVec

/-- The registry at process start: no series exists yet. -/
def Registry.empty : Registry :=
  ⟨⟨fun _ => none⟩, ⟨fun _ => none⟩, ⟨fun _ => none⟩, ⟨fun _ => none⟩,
   ⟨fun _ => none⟩, ⟨fun _ => none⟩, ⟨fun _ => none⟩⟩

/-! ## The recorder -/

/-- The function `recordMetrics` of `server.go`. -/
def recordMetrics (reg : Registry) (tenantClusterName : String) (metrics : BackupMetrics) :
    Registry :=
  let labels := tenantClusterName
  let reg := { reg with attemptsCounter := reg.attemptsCounter.Inc labels }
  if metrics.Successful then
    let reg := { reg with
      creationTime := reg.creationTime.Set labels (float64 metrics.CreationTimeMeasurement) }
    let reg := { reg with
      encryptionTime :=
        reg.encryptionTime.Set labels (float64 metrics.EncryptionTimeMeasurement) }
    let reg := { reg with
      uploadTime := reg.uploadTime.Set labels (float64 metrics.UploadTimeMeasurement) }
    let reg := { reg with
      backupSize := reg.backupSize.Set labels (float64 metrics.BackupSizeMeasurement) }
    { reg with successCounter := reg.successCounter.Inc labels }
  else
    { reg with failureCounter := reg.failureCounter.Inc labels }

/-! ## Reading JSON: `json.NewDecoder(...).Decode`

`Decode` reads the first JSON value of the input, checking its syntax, and stores it in
the target struct.  What follows that value is not examined. -/

/-- The error values `Decode` returns. -/
inductive DecodeError where
  /-- The value `io.EOF`: the input holds no value at all. -/
  | eof
  /-- The value `io.ErrUnexpectedEOF`: the input ends inside a value. -/
  | unexpectedEOF
  /-- A `*json.SyntaxError`. -/
  | invalidJSON
  /-- A `*json.UnmarshalTypeError`: a JSON value of kind `value` met the Go type of
  `field`. -/
  | typeMismatch (value : String) (field : String)
deriving DecidableEq

deriving instance DecidableEq for Except

/-- One JSON value as the decoder of a flat struct sees it: scalars with their content,
arrays and objects only as such (their syntax is checked, their content is skipped). -/
inductive JValue where
  | null
  | bool (b : Bool)
  | number (lit : List Char)
  | string (s : String)
  | array
  | object
deriving DecidableEq

/-- The first JSON value of an input: an object with its members in input order, or any
other value. -/
inductive JTop where
  | object (members : List (String × JValue))
  | other (v : JValue)
deriving DecidableEq

/-- JSON white space. -/
def isSpace (c : Char) : Bool :=
  c = ' ' || c = '\t' || c = '\r' || c = '\n'

/-- Input without its leading white space. -/
def skipSpace : List Char → List Char
  | [] => []
  | c :: rest => if isSpace c then skipSpace rest else c :: rest

/-- Decimal digit. -/
def isDigit (c : Char) : Bool := '0'.toNat ≤ c.toNat && c.toNat ≤ '9'.toNat

/-- Value of a hexadecimal digit. -/
def hexVal (c : Char) : Option Nat :=
  if '0'.toNat ≤ c.toNat ∧ c.toNat ≤ '9'.toNat then some (c.toNat - '0'.toNat)
  else if 'a'.toNat ≤ c.toNat ∧ c.toNat ≤ 'f'.toNat then some (c.toNat - 'a'.toNat + 10)
  else if 'A'.toNat ≤ c.toNat ∧ c.toNat ≤ 'F'.toNat then some (c.toNat - 'A'.toNat + 10)
  else none

/-- The four hexadecimal digits after `\u`, with the rest of the input. -/
def readHex4 : List Char → Except DecodeError (Nat × List Char)
  | a :: b :: c :: d :: rest =>
    match hexVal a, hexVal b, hexVal c, hexVal d with
    | some x, some y, some z, some w => .ok (((x * 16 + y) * 16 + z) * 16 + w, rest)
    | _, _, _, _ => .error .invalidJSON
  | [a, b, c] =>
    match hexVal a, hexVal b, hexVal c with
    | some _, some _, some _ => .error .unexpectedEOF
    | _, _, _ => .error .invalidJSON
  | [a, b] =>
    match hexVal a, hexVal b with
    | some _, some _ => .error .unexpectedEOF
    | _, _ => .error .invalidJSON
  | [a] =>
    match hexVal a with
    | some _ => .error .unexpectedEOF
    | none => .error .invalidJSON
  | [] => .error .unexpectedEOF

/-- The low surrogate of an escape `\uXXXX` that directly follows, if there is one
(`getu4` on the next six bytes, then `utf16.DecodeRune`). -/
def peekLowSurrogate (s : List Char) : Option (Nat × List Char) :=
  match s with
  | b :: u :: digits =>
    if b = '\\' ∧ u = 'u' then
      match readHex4 digits with
      | .ok (lo, rest) => if 0xDC00 ≤ lo ∧ lo < 0xE000 then some (lo, rest) else none
      | .error _ => none
    else none
  | _ => none

/-- The replacement character U+FFFD. -/
def replacementChar : Char := Char.ofNat 0xFFFD

/-- The character a one-letter escape stands for. -/
def escapeChar (c : Char) : Option Char :=
  if c = '"' then some '"'
  else if c = '\\' then some '\\'
  else if c = '/' then some '/'
  else if c = 'b' then some (Char.ofNat 8)
  else if c = 'f' then some (Char.ofNat 12)
  else if c = 'n' then some '\n'
  else if c = 'r' then some '\r'
  else if c = 't' then some '\t'
  else none

/-- A string literal after its opening quote: the unquoted content and the input after
the closing quote.  Control characters and unknown escapes are syntax errors; an escaped
surrogate that is not the first half of an escaped pair becomes U+FFFD. -/
def readString : Nat → List Char → Except DecodeError (List Char × List Char)
  | 0, _ => .error .unexpectedEOF
  | _ + 1, [] => .error .unexpectedEOF
  | fuel + 1, c :: rest =>
    if c = '"' then .ok ([], rest)
    else if c = '\\' then
      match rest with
      | [] => .error .unexpectedEOF
      | e :: rest1 =>
        if e = 'u' then
          match readHex4 rest1 with
          | .error err => .error err
          | .ok (r, rest2) =>
            if 0xD800 ≤ r ∧ r < 0xE000 then
              match (if r < 0xDC00 then peekLowSurrogate rest2 else none) with
              | some (lo, rest3) =>
                (readString fuel rest3).map fun p =>
                  (Char.ofNat ((r - 0xD800) * 1024 + (lo - 0xDC00) + 0x10000) :: p.1, p.2)
              | none => (readString fuel rest2).map fun p => (replacementChar :: p.1, p.2)
            else (readString fuel rest2).map fun p => (Char.ofNat r :: p.1, p.2)
        else
          match escapeChar e with
          | some x => (readString fuel rest1).map fun p => (x :: p.1, p.2)
          | none => .error .invalidJSON
    else if c.toNat < 0x20 then .error .invalidJSON
    else (readString fuel rest).map fun p => (c :: p.1, p.2)

/-- The longest run of decimal digits at the head of the input, and what follows it. -/
def spanDigits : List Char → List Char × List Char
  | [] => ([], [])
  | c :: rest =>
    if isDigit c then ((spanDigits rest).1.cons c, (spanDigits rest).2) else ([], c :: rest)

/-- A run of at least one digit. -/
def readDigits1 (s : List Char) : Except DecodeError (List Char × List Char) :=
  match s with
  | [] => .error .unexpectedEOF
  | c :: _ => if isDigit c then .ok (spanDigits s) else .error .invalidJSON

/-- The integer part of a number: a single `0`, or a run of digits that starts with a
digit other than `0`. -/
def readIntPart (s : List Char) : Except DecodeError (List Char × List Char) :=
  match s with
  | [] => .error .unexpectedEOF
  | c :: r =>
    if c = '0' then .ok ([c], r)
    else if isDigit c then .ok (spanDigits s)
    else .error .invalidJSON

/-- The optional fraction of a number: a point and at least one digit. -/
def readFraction (s : List Char) : Except DecodeError (List Char × List Char) :=
  match s with
  | [] => .ok ([], s)
  | c :: r =>
    if c = '.' then (readDigits1 r).map fun p => (c :: p.1, p.2)
    else .ok ([], s)

/-- The optional exponent of a number: `e` or `E`, an optional sign and at least one
digit. -/
def readExponent (s : List Char) : Except DecodeError (List Char × List Char) :=
  match s with
  | [] => .ok ([], s)
  | e :: r =>
    if e = 'e' ∨ e = 'E' then
      match r with
      | [] => .error .unexpectedEOF
      | sg :: r1 =>
        if sg = '+' ∨ sg = '-' then (readDigits1 r1).map fun p => (e :: sg :: p.1, p.2)
        else (readDigits1 r).map fun p => (e :: p.1, p.2)
    else .ok ([], s)

/-- The optional minus sign of a number, and the input after it. -/
def readSign (s : List Char) : List Char × List Char :=
  match s with
  | [] => ([], s)
  | c :: r => if c = '-' then ([c], r) else ([], s)

/-- A number literal (the input starts with `-` or a digit): its text and the input
after it. -/
def readNumber (s : List Char) : Except DecodeError (List Char × List Char) :=
  match readIntPart (readSign s).2 with
  | .error err => .error err
  | .ok (int, s2) =>
    match readFraction s2 with
    | .error err => .error err
    | .ok (frac, s3) =>
      match readExponent s3 with
      | .error err => .error err
      | .ok (exp, s4) => .ok ((readSign s).1 ++ int ++ frac ++ exp, s4)

/-- The rest of a literal name (`true`, `false`, `null`) after its first letter. -/
def readName : List Char → List Char → Except DecodeError (List Char)
  | [], s => .ok s
  | _ :: _, [] => .error .unexpectedEOF
  | n :: name, c :: s => if c = n then readName name s else .error .invalidJSON

/-- Nesting depth beyond which the scanner reports an error. -/
def maxNestingDepth : Nat := 10000

mutual

/-- One JSON value at the head of the input (after optional white space), at nesting
depth `depth`: its kind and the input after it. -/
def readValue : Nat → Nat → List Char → Except DecodeError (JValue × List Char)
  | 0, _, _ => .error .unexpectedEOF
  | fuel + 1, depth, s =>
    match skipSpace s with
    | [] => .error .unexpectedEOF
    | c :: rest =>
      if c = '{' then
        if maxNestingDepth < depth + 1 then .error .invalidJSON
        else
          match skipSpace rest with
          | [] => .error .unexpectedEOF
          | c1 :: rest1 =>
            if c1 = '}' then .ok (.object, rest1)
            else (readMembers fuel (depth + 1) (c1 :: rest1)).map fun p => (.object, p.2)
      else if c = '[' then
        if maxNestingDepth < depth + 1 then .error .invalidJSON
        else
          match skipSpace rest with
          | [] => .error .unexpectedEOF
          | c1 :: rest1 =>
            if c1 = ']' then .ok (.array, rest1)
            else (readElements fuel (depth + 1) (c1 :: rest1)).map fun r => (.array, r)
      else if c = '"' then
        (readString (fuel + 1) rest).map fun p => (.string (String.mk p.1), p.2)
      else if c = '-' ∨ isDigit c then
        (readNumber (c :: rest)).map fun p => (.number p.1, p.2)
      else if c = 't' then
        (readName ['r', 'u', 'e'] rest).map fun r => (.bool true, r)
      else if c = 'f' then
        (readName ['a', 'l', 's', 'e'] rest).map fun r => (.bool false, r)
      else if c = 'n' then
        (readName ['u', 'l', 'l'] rest).map fun r => (.null, r)
      else .error .invalidJSON

/-- The elements of a non-empty array up to and including the closing bracket (the input
starts at the first element): the input after the bracket. -/
def readElements : Nat → Nat → List Char → Except DecodeError (List Char)
  | 0, _, _ => .error .unexpectedEOF
  | fuel + 1, depth, s =>
    match readValue fuel depth s with
    | .error e => .error e
    | .ok (_, rest) =>
      match skipSpace rest with
      | [] => .error .unexpectedEOF
      | c :: rest1 =>
        if c = ',' then readElements fuel depth rest1
        else if c = ']' then .ok rest1
        else .error .invalidJSON

/-- The members of a non-empty object up to and including the closing brace (the input
starts at the first key, white space skipped): the members in input order and the input
after the brace. -/
def readMembers : Nat → Nat → List Char →
    Except DecodeError (List (String × JValue) × List Char)
  | 0, _, _ => .error .unexpectedEOF
  | fuel + 1, depth, s =>
    match s with
    | [] => .error .unexpectedEOF
    | q :: afterQuote =>
      if q = '"' then
        match readString (fuel + 1) afterQuote with
        | .error e => .error e
        | .ok (key, rest) =>
          match skipSpace rest with
          | [] => .error .unexpectedEOF
          | colon :: rest1 =>
            if colon = ':' then
              match readValue fuel depth rest1 with
              | .error e => .error e
              | .ok (v, rest2) =>
                match skipSpace rest2 with
                | [] => .error .unexpectedEOF
                | c :: rest3 =>
                  if c = ',' then
                    (readMembers fuel depth (skipSpace rest3)).map fun p =>
                      ((String.mk key, v) :: p.1, p.2)
                  else if c = '}' then .ok ([(String.mk key, v)], rest3)
                  else .error .invalidJSON
            else .error .invalidJSON
      else .error .invalidJSON

end

/-- The first JSON value of a body, read with the given fuel: `io.EOF` when the body
holds nothing but white space, otherwise the value at its head; the input after that
value is not looked at. -/
def readTopWith (fuel : Nat) (body : List Char) : Except DecodeError JTop :=
  match skipSpace body with
  | [] => .error .eof
  | c :: rest =>
    if c = '{' then
      match skipSpace rest with
      | [] => .error .unexpectedEOF
      | c1 :: rest1 =>
        if c1 = '}' then .ok (.object [])
        else (readMembers fuel 1 (c1 :: rest1)).map fun p => .object p.1
    else (readValue fuel 0 (c :: rest)).map fun p => .other p.1

/-- The first JSON value of a body, as `Decode` reads it.  The readers take one unit of
fuel per call, and at most two calls per character of the body. -/
def readTop (body : List Char) : Except DecodeError JTop :=
  readTopWith (2 * body.length + 1) body

/-! ## Storing a JSON value in a struct -/

/-- The name of the kind of a JSON value, as type errors report it. -/
def JValue.kind : JValue → String
  | .null => "null"
  | .bool _ => "bool"
  | .number _ => "number"
  | .string _ => "string"
  | .array => "array"
  | .object => "object"

/-- Case folding of one character of a key: ASCII letters to upper case, and the two
letters outside ASCII whose simple case folding is an ASCII letter, the Kelvin sign
U+212A and the long s U+017F.  Other characters are left alone, which is all that
matters for a comparison with field names made of ASCII letters. -/
def foldRune (c : Char) : Char :=
  if 'a'.toNat ≤ c.toNat ∧ c.toNat ≤ 'z'.toNat then Char.ofNat (c.toNat - 32)
  else if c.toNat = 0x212A then 'K'
  else if c.toNat = 0x17F then 'S'
  else c

/-- Case folding of a key or field name. -/
def foldName (s : String) : List Char := s.data.map foldRune

/-- The struct field a key addresses: the field of exactly that name, otherwise the
first field whose name equals the key up to case folding. -/
def findField (fields : List String) (key : String) : Option String :=
  match fields.find? (fun f => f = key) with
  | some f => some f
  | none => fields.find? (fun f => foldName f = foldName key)

/-- Storing a JSON value in a `bool` field: `null` leaves the field as it is. -/
def storeBool (field : String) (v : JValue) (old : Bool) : Except DecodeError Bool :=
  match v with
  | .bool b => .ok b
  | .null => .ok old
  | other => .error (.typeMismatch other.kind field)

/-- The call `strconv.ParseInt(lit, 10, 64)` on the text of a JSON number: the text must
be an optional minus sign and digits only, and the value must fit `int64`. -/
def parseInt64 (lit : List Char) : Option Int :=
  let neg := lit.head? = some '-'
  let digits := if neg then lit.tail else lit
  if digits ≠ [] ∧ digits.all isDigit = true then
    let n : Nat := digits.foldl (fun acc c => acc * 10 + (c.toNat - '0'.toNat)) 0
    let v : Int := if neg then -(n : Int) else (n : Int)
    if inInt64 v then some v else none
  else none

/-- Storing a JSON value in an `int64` field: `null` leaves the field as it is. -/
def storeInt64 (field : String) (v : JValue) (old : Int) : Except DecodeError Int :=
  match v with
  | .number lit =>
    match parseInt64 lit with
    | some n => .ok n
    | none => .error (.typeMismatch "number" field)
  | .null => .ok old
  | other => .error (.typeMismatch other.kind field)

/-- Storing a JSON value in a `string` field: `null` leaves the field as it is. -/
def storeString (field : String) (v : JValue) (old : String) : Except DecodeError String :=
  match v with
  | .string s => .ok s
  | .null => .ok old
  | other => .error (.typeMismatch other.kind field)

/-- The members of an object stored one after the other; the first type error is the
one reported. -/
def storeMembers {α : Type} (store : α → String × JValue → Except DecodeError α) :
    List (String × JValue) → α → Except DecodeError α
  | [], a => .ok a
  | kv :: rest, a =>
    match store a kv with
    | .error e => .error e
    | .ok a1 => storeMembers store rest a1

/-- Storing the first value of a body in a struct that starts as `init`: an object is
stored member by member, `null` leaves the struct as it is, every other value is a type
error. -/
def unmarshal {α : Type} (typeName : String)
    (store : α → String × JValue → Except DecodeError α) (init : α) :
    JTop → Except DecodeError α
  | .object members => storeMembers store members init
  | .other .null => .ok init
  | .other v => .error (.typeMismatch v.kind typeName)

/-- The zero value of `BackupMetrics`, the content of `var metrics BackupMetrics`. -/
def BackupMetrics.zero : BackupMetrics := ⟨false, 0, 0, 0, 0⟩

/-- The field names of `BackupMetrics`. -/
def BackupMetrics.fields : List String :=
  ["Successful", "BackupSizeMeasurement", "CreationTimeMeasurement",
   "EncryptionTimeMeasurement", "UploadTimeMeasurement"]

/-- One object member stored in a `BackupMetrics`; a key that addresses no field is
skipped. -/
def BackupMetrics.store (m : BackupMetrics) (kv : String × JValue) :
    Except DecodeError BackupMetrics :=
  match findField BackupMetrics.fields kv.1 with
  | none => .ok m
  | some f =>
    if f = "Successful" then
      (storeBool f kv.2 m.Successful).map fun b => { m with Successful := b }
    else if f = "BackupSizeMeasurement" then
      (storeInt64 f kv.2 m.BackupSizeMeasurement).map fun n =>
        { m with BackupSizeMeasurement := n }
    else if f = "CreationTimeMeasurement" then
      (storeInt64 f kv.2 m.CreationTimeMeasurement).map fun n =>
        { m with CreationTimeMeasurement := n }
    else if f = "EncryptionTimeMeasurement" then
      (storeInt64 f kv.2 m.EncryptionTimeMeasurement).map fun n =>
        { m with EncryptionTimeMeasurement := n }
    else
      (storeInt64 f kv.2 m.UploadTimeMeasurement).map fun n =>
        { m with UploadTimeMeasurement := n }

/-- The anonymous struct `struct{ Cluster string }` of the handler. -/
structure Info where
  Cluster : String
deriving DecidableEq

/-- One object member stored in an `Info`. -/
def Info.store (info : Info) (kv : String × JValue) : Except DecodeError Info :=
  match findField ["Cluster"] kv.1 with
  | none => .ok info
  | some f => (storeString f kv.2 info.Cluster).map fun s => { info with Cluster := s }

/-- The call `json.NewDecoder(bytes.NewBuffer(body)).Decode(&metrics)` on a zero
`BackupMetrics`. -/
def decodeBackupMetrics (body : List Char) : Except DecodeError BackupMetrics :=
  match readTop body with
  | .error e => .error e
  | .ok top => unmarshal "BackupMetrics" BackupMetrics.store BackupMetrics.zero top

/-- The call `json.NewDecoder(bytes.NewBuffer(body)).Decode(&info)` on a zero `info`. -/
def decodeInfo (body : List Char) : Except DecodeError Info :=
  match readTop body with
  | .error e => .error e
  | .ok top => unmarshal "struct" Info.store ⟨""⟩ top

/-! ## The reporting handler -/

/-- What the handler reads of an `*http.Request`. -/
structure Request where
  Method : String
  RequestURI : String
  Body : List Char

/-- An `http.ResponseWriter`: the status code once the header is written, and the body
written so far. -/
structure ResponseWriter where
  status : Option Nat
  body : String
deriving DecidableEq

/-- The writer a request starts with. -/
def ResponseWriter.fresh : ResponseWriter := ⟨none, ""⟩

/-- The method `WriteHeader`: the first status code counts. -/
def ResponseWriter.WriteHeader (w : ResponseWriter) (code : Nat) : ResponseWriter :=
  match w.status with
  | some _ => w
  | none => { w with status := some code }

/-- The method `Write`: writes the header with status 200 if it is not yet written. -/
def ResponseWriter.Write (w : ResponseWriter) (s : String) : ResponseWriter :=
  let w := w.WriteHeader 200
  { w with body := w.body ++ s }

/-- The call `fmt.Fprint(w, s)` for a string `s`. -/
def Fprint (w : ResponseWriter) (s : String) : ResponseWriter := w.Write s

/-- The function `http.Error`: writes the status code and then the message followed by a
newline (`fmt.Fprintln`). -/
def httpError (w : ResponseWriter) (error : String) (code : Nat) : ResponseWriter :=
  (w.WriteHeader code).Write (error ++ "\n")

/-- The constant `http.StatusBadRequest`. -/
def StatusBadRequest : Nat := 400

/-- Everything the handler acts on besides the response: the registry, the lines printed
to standard output, and the errors passed to `ms.Logger.Log("msg", err)`. -/
structure World where
  registry : Registry
  stdout : List String
  logged : List DecodeError

/-- The method `Server.handler` of `server.go`. -/
def handler (st : World) (w : ResponseWriter) (r : Request) : World × ResponseWriter :=
  let st := { st with stdout := st.stdout ++ ["qua\n"] }
  if r.Method = "GET" ∧ r.RequestURI = "/healthz" then
    (st, Fprint w "OK")
  else
    let body := r.Body
    match decodeBackupMetrics body with
    | .error err =>
      let w := httpError w "Bad request" StatusBadRequest
      ({ st with logged := st.logged ++ [err] }, w)
    | .ok metrics =>
      match decodeInfo body with
      | .error err =>
        let w := httpError w "Bad request" StatusBadRequest
        ({ st with logged := st.logged ++ [err] }, w)
      | .ok info =>
        ({ st with registry := recordMetrics st.registry info.Cluster metrics },
          Fprint w "OK")

/-- The path of a request target: what comes before the query string. -/
def requestPath (requestURI : String) : String :=
  String.mk (requestURI.data.takeWhile fun c => c ≠ '?')

/-! ## Writing JSON: `json.Marshal` of the sender's body -/

/-- The digit table `hex` of the encoder. -/
def hexTable : List Char := "0123456789abcdef".toList

/-- Lower-case hexadecimal digit `hex[n]`. -/
def hexDigit (n : Nat) : Char := hexTable.getD n '0'

/-- One character of a string as `json.Marshal` writes it (HTML escaping on). -/
def quoteChar (c : Char) : List Char :=
  if c = '"' ∨ c = '\\' then ['\\', c]
  else if c.toNat = 8 then ['\\', 'b']
  else if c.toNat = 12 then ['\\', 'f']
  else if c = '\n' then ['\\', 'n']
  else if c = '\r' then ['\\', 'r']
  else if c = '\t' then ['\\', 't']
  else if c.toNat < 0x20 ∨ c = '<' ∨ c = '>' ∨ c = '&' then
    ['\\', 'u', '0', '0', hexDigit (c.toNat / 16), hexDigit (c.toNat % 16)]
  else if c.toNat = 0x2028 ∨ c.toNat = 0x2029 then
    ['\\', 'u', '2', '0', '2', hexDigit (c.toNat % 16)]
  else [c]

/-- A string literal as `json.Marshal` writes it. -/
def quoteString (s : String) : List Char :=
  '"' :: (s.data.flatMap quoteChar ++ ['"'])

/-- Decimal digits of a natural number, most significant first, in front of `acc`. -/
def natDigits : Nat → Nat → List Char → List Char
  | 0, _, acc => acc
  | fuel + 1, n, acc =>
    let acc := Char.ofNat ('0'.toNat + n % 10) :: acc
    if n < 10 then acc else natDigits fuel (n / 10) acc

/-- Decimal text of an integer (`strconv.AppendInt(v, 10)`). -/
def intText (v : Int) : List Char :=
  if v < 0 then '-' :: natDigits (v.natAbs + 1) v.natAbs []
  else natDigits (v.natAbs + 1) v.natAbs []

/-- Text of a JSON value; an array or object without content is written empty. -/
def encodeValue (v : JValue) : List Char :=
  match v with
  | .string s => quoteString s
  | .number lit => lit
  | .bool b => if b then "true".toList else "false".toList
  | .null => "null".toList
  | .array => "[]".toList
  | .object => ['{', '}']

/-- Text of the members of an object, separated by commas. -/
def encodeMembers : List (String × JValue) → List Char
  | [] => []
  | [kv] => quoteString kv.1 ++ ':' :: encodeValue kv.2
  | kv :: rest => quoteString kv.1 ++ ':' :: encodeValue kv.2 ++ ',' :: encodeMembers rest

/-- Text of a JSON object. -/
def encodeObject (members : List (String × JValue)) : List Char :=
  '{' :: (encodeMembers members ++ ['}'])

/-! ## The sender -/

/-- The local struct type `bodyType` of `Send`. -/
structure bodyType where
  Cluster : String
  Successful : Bool
  BackupSizeMeasurement : Int
  CreationTimeMeasurement : Int
  EncryptionTimeMeasurement : Int
  UploadTimeMeasurement : Int
deriving DecidableEq

/-- The JSON object `json.Marshal` makes of a `bodyType`: one member per field, in
declaration order, named as the field. -/
def bodyType.members (b : bodyType) : List (String × JValue) :=
  [("Cluster", .string b.Cluster),
   ("Successful", .bool b.Successful),
   ("BackupSizeMeasurement", .number (intText b.BackupSizeMeasurement)),
   ("CreationTimeMeasurement", .number (intText b.CreationTimeMeasurement)),
   ("EncryptionTimeMeasurement", .number (intText b.EncryptionTimeMeasurement)),
   ("UploadTimeMeasurement", .number (intText b.UploadTimeMeasurement))]

/-- The function `json.Marshal` on a `bodyType`; it has no failing case for a struct of
a string, a boolean and integers. -/
def jsonMarshal {E : Type} (b : bodyType) : Except E (List Char) :=
  .ok (encodeObject b.members)

/-- One call of `http.Post`. -/
structure PostCall where
  url : String
  contentType : String
  data : List Char
deriving DecidableEq

/-- What a call of `Send` does: the two values it returns (`err = none` is the nil
error) and the calls of `http.Post` it made. -/
structure SendResult (E : Type) where
  ok : Bool
  err : Option E
  posts : List PostCall

/-- The function `Send` of `metrics.go`.  The library functions are parameters:
`mask` is `microerror.Mask` on a non-nil error, `marshal` is `json.Marshal`, and `post`
gives the error `http.Post` returns for a call (`none` for nil).  The configuration
argument is not used; `metrics` is the bundle the pointer argument points to. -/
def Send {Config E : Type} (mask : E → E) (marshal : bodyType → Except E (List Char))
    (post : PostCall → Option E) (_prometheusConfig : Config) (metrics : BackupMetrics)
    (tenantClusterName : String) : SendResult E :=
  let body : bodyType :=
    { Cluster := tenantClusterName
      Successful := metrics.Successful
      BackupSizeMeasurement := metrics.BackupSizeMeasurement
      CreationTimeMeasurement := metrics.CreationTimeMeasurement
      EncryptionTimeMeasurement := metrics.EncryptionTimeMeasurement
      UploadTimeMeasurement := metrics.UploadTimeMeasurement }
  match marshal body with
  | .error err => ⟨true, some (mask err), []⟩
  | .ok data =>
    let call : PostCall :=
      ⟨"http://etcd-backup-metrics-collector:8080/", "application/json", data⟩
    ⟨true, post call, [call]⟩

/-! ## Sequences of recordings -/

/-- The registry after a sequence of calls of `recordMetrics`, first call first. -/
def recordAll (reg : Registry) : List (String × BackupMetrics) → Registry
  | [] => reg
  | call :: rest => recordAll (recordMetrics reg call.1 call.2) rest

/-! ## Auxiliary notions for the properties -/

/-- What can follow a number in an object: not a digit, and not a continuation of the
number. -/
def endsNumber (x : Char) : Prop :=
  isDigit x = false ∧ x ≠ '.' ∧ x ≠ 'e' ∧ x ≠ 'E'

/-- The values `json.Marshal` writes for the fields of a flat struct of strings,
booleans and integers. -/
def JValue.isFlat : JValue → Prop
  | .string _ => True
  | .bool _ => True
  | .null => True
  | .number lit => ∃ n : Int, lit = intText n
  | .array => False
  | .object => False

/-! ## Example bodies -/

/-- The example report of the spec:
`{"Successful":true,"BackupSizeMeasurement":1024,"CreationTimeMeasurement":50,"EncryptionTimeMeasurement":30,"UploadTimeMeasurement":200,"Cluster":"mycluster"}`. -/
def exampleReport : List Char :=
  "\x7b\"Successful\":true,\"BackupSizeMeasurement\":1024,\"CreationTimeMeasurement\":50,\"EncryptionTimeMeasurement\":30,\"UploadTimeMeasurement\":200,\"Cluster\":\"mycluster\"\x7d".toList

/-- The body `{"Successful":false}`. -/
def failedReportWithoutCluster : List Char :=
  "\x7b\"Successful\":false\x7d".toList

/-- The body `{"Successful":true}`. -/
def successReport : List Char :=
  "\x7b\"Successful\":true\x7d".toList

/-- The body `{"Successful":true}xyz`: a JSON object followed by text that is not JSON. -/
def reportWithTrailingText : List Char :=
  "\x7b\"Successful\":true\x7dxyz".toList

/-- The body `{"Successful":tru`, cut short inside a value. -/
def truncatedReport : List Char :=
  "\x7b\"Successful\":tru".toList

/-- The body `{not json`. -/
def notJSONBody : List Char :=
  "\x7bnot json".toList

/-- The body `{"Successful":true,"Cluster":"mycluster"}`. -/
def shortReport : List Char :=
  "\x7b\"Successful\":true,\"Cluster\":\"mycluster\"\x7d".toList

/-- The body `{"Cluster":5}`. -/
def numericClusterBody : List Char :=
  "\x7b\"Cluster\":5\x7d".toList

/-- The body `{"Successful":true,"Cluster":5}`. -/
def reportWithNumericCluster : List Char :=
  "\x7b\"Successful\":true,\"Cluster\":5\x7d".toList

/-! ## Properties of the conversion to `float64` -/

/-- The conversion `float64(v)` is exact for every integer of magnitude at most `2^53`. -/
theorem float64_exact (v : Int) (h : v.natAbs ≤ 2 ^ 53) : float64 v = v := by
  have hr : roundMagnitude v.natAbs = v.natAbs := by
    rcases Nat.lt_or_ge v.natAbs (2 ^ 53) with hlt | hge
    · have h0 : shiftFor 64 v.natAbs = 0 := by
        show (if v.natAbs < 2 ^ 53 then 0 else shiftFor 63 (v.natAbs / 2) + 1) = 0
        rw [if_pos hlt]
      unfold roundMagnitude
      simp only [h0, if_true]
    · have he : v.natAbs = 2 ^ 53 := Nat.le_antisymm h hge
      rw [he]
      decide
  unfold float64
  rw [hr]
  split
  · omega
  · omega

/-! ## Properties of the recorder -/

/-- Incrementing a counter series changes the series. -/
theorem CounterVec.Inc_series_ne (c : CounterVec) (label : String) :
    (c.Inc label).series label ≠ c.series label := by
  unfold CounterVec.Inc CounterVec.value
  simp only [if_true]
  cases h : c.series label with
  | none => simp
  | some v => simp

/-- Every call of `recordMetrics` changes the registry. -/
theorem recordMetrics_ne (reg : Registry) (c : String) (m : BackupMetrics) :
    recordMetrics reg c m ≠ reg := by
  intro h
  have h1 : (recordMetrics reg c m).attemptsCounter.series c = reg.attemptsCounter.series c := by
    rw [h]
  have h2 : (recordMetrics reg c m).attemptsCounter = reg.attemptsCounter.Inc c := by
    unfold recordMetrics
    cases m.Successful <;> rfl
  rw [h2] at h1
  exact CounterVec.Inc_series_ne _ _ h1

/-- The value of each counter after one call of `recordMetrics`. -/
theorem recordMetrics_counters (reg : Registry) (c : String) (m : BackupMetrics) (k : String) :
    (recordMetrics reg c m).attemptsCounter.value k
      = reg.attemptsCounter.value k + (if k = c then 1 else 0) ∧
    (recordMetrics reg c m).successCounter.value k
      = reg.successCounter.value k + (if k = c ∧ m.Successful = true then 1 else 0) ∧
    (recordMetrics reg c m).failureCounter.value k
      = reg.failureCounter.value k + (if k = c ∧ m.Successful = false then 1 else 0) := by
  unfold recordMetrics
  by_cases hk : k = c
  · subst hk
    cases hs : m.Successful <;> simp [CounterVec.Inc, CounterVec.value]
  · cases hs : m.Successful <;> simp [CounterVec.Inc, CounterVec.value, hk]

/-- Recording a sequence of calls after another one. -/
theorem recordAll_append (reg : Registry) (xs ys : List (String × BackupMetrics)) :
    recordAll reg (xs ++ ys) = recordAll (recordAll reg xs) ys := by
  induction xs generalizing reg with
  | nil => rfl
  | cons x xs ih => exact ih _

/-- No counter value decreases over a sequence of calls. -/
theorem recordAll_counters_mono (reg : Registry) (calls : List (String × BackupMetrics))
    (k : String) :
    reg.attemptsCounter.value k ≤ (recordAll reg calls).attemptsCounter.value k ∧
    reg.successCounter.value k ≤ (recordAll reg calls).successCounter.value k ∧
    reg.failureCounter.value k ≤ (recordAll reg calls).failureCounter.value k := by
  induction calls generalizing reg with
  | nil => exact ⟨Nat.le_refl _, Nat.le_refl _, Nat.le_refl _⟩
  | cons x xs ih =>
    obtain ⟨h1, h2, h3⟩ := recordMetrics_counters reg x.1 x.2 k
    obtain ⟨i1, i2, i3⟩ := ih (recordMetrics reg x.1 x.2)
    refine ⟨?_, ?_, ?_⟩
    · exact Nat.le_trans (by rw [h1]; exact Nat.le_add_right _ _) i1
    · exact Nat.le_trans (by rw [h2]; exact Nat.le_add_right _ _) i2
    · exact Nat.le_trans (by rw [h3]; exact Nat.le_add_right _ _) i3

/-- The balance of the three counters is kept by every sequence of calls. -/
theorem recordAll_balance (reg : Registry) (calls : List (String × BackupMetrics))
    (k : String)
    (h : reg.attemptsCounter.value k = reg.successCounter.value k + reg.failureCounter.value k) :
    (recordAll reg calls).attemptsCounter.value k
      = (recordAll reg calls).successCounter.value k
        + (recordAll reg calls).failureCounter.value k := by
  induction calls generalizing reg with
  | nil => exact h
  | cons x xs ih =>
    apply ih
    obtain ⟨h1, h2, h3⟩ := recordMetrics_counters reg x.1 x.2 k
    rw [h1, h2, h3, h]
    by_cases hk : k = x.1
    · cases hs : x.2.Successful <;> simp [hk] <;> omega
    · simp [hk]

/-- C1, as stated, fails: the bundle with `Successful = true` and
`BackupSizeMeasurement = 2^53 + 1` lies in the `int64` range, and after recording it the
size gauge of its cluster holds `2^53`, not the bundle's value. -/
theorem recordMetrics_gauge_rounds :
    (⟨true, 2 ^ 53 + 1, 50, 30, 200⟩ : BackupMetrics).inRange ∧
    (recordMetrics Registry.empty "mycluster" ⟨true, 2 ^ 53 + 1, 50, 30, 200⟩).backupSize.series
        "mycluster" = some (2 ^ 53) ∧
    (recordMetrics Registry.empty "mycluster" ⟨true, 2 ^ 53 + 1, 50, 30, 200⟩).backupSize.series
        "mycluster" ≠ some (⟨true, 2 ^ 53 + 1, 50, 30, 200⟩ : BackupMetrics).BackupSizeMeasurement := by
  decide!

/-- C1, amended: after `recordMetrics c m` with `m.Successful = true`, each of the four
gauges of `c` holds the `float64` conversion of the bundle's field, whatever it held
before, and that is the field itself whenever its magnitude is at most `2^53`; the
success and attempt counters of `c` are one higher than before, the failure counter is
unchanged, and no series of another cluster label changes. -/
theorem recordMetrics_successful (reg : Registry) (c : String) (m : BackupMetrics)
    (h : m.Successful = true) :
    ((recordMetrics reg c m).creationTime.series c = some (float64 m.CreationTimeMeasurement) ∧
     (recordMetrics reg c m).encryptionTime.series c
        = some (float64 m.EncryptionTimeMeasurement) ∧
     (recordMetrics reg c m).uploadTime.series c = some (float64 m.UploadTimeMeasurement) ∧
     (recordMetrics reg c m).backupSize.series c = some (float64 m.BackupSizeMeasurement)) ∧
    ((m.CreationTimeMeasurement.natAbs ≤ 2 ^ 53 →
        (recordMetrics reg c m).creationTime.series c = some m.CreationTimeMeasurement) ∧
     (m.EncryptionTimeMeasurement.natAbs ≤ 2 ^ 53 →
        (recordMetrics reg c m).encryptionTime.series c = some m.EncryptionTimeMeasurement) ∧
     (m.UploadTimeMeasurement.natAbs ≤ 2 ^ 53 →
        (recordMetrics reg c m).uploadTime.series c = some m.UploadTimeMeasurement) ∧
     (m.BackupSizeMeasurement.natAbs ≤ 2 ^ 53 →
        (recordMetrics reg c m).backupSize.series c = some m.BackupSizeMeasurement)) ∧
    ((recordMetrics reg c m).successCounter.series c = some (reg.successCounter.value c + 1) ∧
     (recordMetrics reg c m).attemptsCounter.series c
        = some (reg.attemptsCounter.value c + 1) ∧
     (recordMetrics reg c m).failureCounter = reg.failureCounter) ∧
    (∀ k : String, k ≠ c →
      (recordMetrics reg c m).creationTime.series k = reg.creationTime.series k ∧
      (recordMetrics reg c m).encryptionTime.series k = reg.encryptionTime.series k ∧
      (recordMetrics reg c m).uploadTime.series k = reg.uploadTime.series k ∧
      (recordMetrics reg c m).backupSize.series k = reg.backupSize.series k ∧
      (recordMetrics reg c m).attemptsCounter.series k = reg.attemptsCounter.series k ∧
      (recordMetrics reg c m).successCounter.series k = reg.successCounter.series k ∧
      (recordMetrics reg c m).failureCounter.series k = reg.failureCounter.series k) := by
  have hg : (recordMetrics reg c m).creationTime.series c
        = some (float64 m.CreationTimeMeasurement) ∧
      (recordMetrics reg c m).encryptionTime.series c
        = some (float64 m.EncryptionTimeMeasurement) ∧
      (recordMetrics reg c m).uploadTime.series c = some (float64 m.UploadTimeMeasurement) ∧
      (recordMetrics reg c m).backupSize.series c
        = some (float64 m.BackupSizeMeasurement) := by
    simp [recordMetrics, h, GaugeVec.Set]
  refine ⟨hg, ⟨?_, ?_, ?_, ?_⟩, ?_, ?_⟩
  · intro hb; rw [hg.1, float64_exact _ hb]
  · intro hb; rw [hg.2.1, float64_exact _ hb]
  · intro hb; rw [hg.2.2.1, float64_exact _ hb]
  · intro hb; rw [hg.2.2.2, float64_exact _ hb]
  · simp [recordMetrics, h, CounterVec.Inc]
  · intro k hk
    simp [recordMetrics, h, CounterVec.Inc, GaugeVec.Set, hk]

/-- Witness of C1, amended: a successful bundle recorded in the empty registry. -/
theorem recordMetrics_successful_witness :
    (⟨true, 1024, 50, 30, 200⟩ : BackupMetrics).Successful = true ∧
    (recordMetrics Registry.empty "mycluster" ⟨true, 1024, 50, 30, 200⟩).backupSize.series
        "mycluster" = some 1024 ∧
    (recordMetrics Registry.empty "mycluster" ⟨true, 1024, 50, 30, 200⟩).successCounter.series
        "mycluster" = some 1 :=
  ⟨rfl,
   (recordMetrics_successful Registry.empty "mycluster" ⟨true, 1024, 50, 30, 200⟩ rfl).2.1.2.2.2
     (by decide),
   (recordMetrics_successful Registry.empty "mycluster" ⟨true, 1024, 50, 30, 200⟩ rfl).2.2.1.1⟩

/-- C2: after `recordMetrics c m` with `m.Successful = false`, the failure and attempt
counters of `c` are one higher than before and nothing else has changed: the four gauge
vectors and the success counter vector are the ones before the call, whatever the
measurements of the bundle are, and no series of another cluster label changes. -/
theorem recordMetrics_failed (reg : Registry) (c : String) (m : BackupMetrics)
    (h : m.Successful = false) :
    ((recordMetrics reg c m).failureCounter.series c = some (reg.failureCounter.value c + 1) ∧
     (recordMetrics reg c m).attemptsCounter.series c
        = some (reg.attemptsCounter.value c + 1)) ∧
    ((recordMetrics reg c m).creationTime = reg.creationTime ∧
     (recordMetrics reg c m).encryptionTime = reg.encryptionTime ∧
     (recordMetrics reg c m).uploadTime = reg.uploadTime ∧
     (recordMetrics reg c m).backupSize = reg.backupSize ∧
     (recordMetrics reg c m).successCounter = reg.successCounter) ∧
    (∀ k : String, k ≠ c →
      (recordMetrics reg c m).attemptsCounter.series k = reg.attemptsCounter.series k ∧
      (recordMetrics reg c m).failureCounter.series k = reg.failureCounter.series k) := by
  refine ⟨?_, ?_, ?_⟩
  · simp [recordMetrics, h, CounterVec.Inc]
  · simp [recordMetrics, h]
  · intro k hk
    simp [recordMetrics, h, CounterVec.Inc, hk]

/-- Witness of C2: a failed bundle with non-zero measurements, recorded after a
successful one for the same cluster, leaves the size gauge at 1024. -/
theorem recordMetrics_failed_witness :
    (⟨false, 7, 8, 9, 10⟩ : BackupMetrics).Successful = false ∧
    (recordMetrics (recordMetrics Registry.empty "mycluster" ⟨true, 1024, 50, 30, 200⟩)
        "mycluster" ⟨false, 7, 8, 9, 10⟩).backupSize.series "mycluster" = some 1024 ∧
    (recordMetrics (recordMetrics Registry.empty "mycluster" ⟨true, 1024, 50, 30, 200⟩)
        "mycluster" ⟨false, 7, 8, 9, 10⟩).failureCounter.series "mycluster" = some 1 :=
  ⟨rfl,
   by
     rw [(recordMetrics_failed (recordMetrics Registry.empty "mycluster" ⟨true, 1024, 50, 30, 200⟩)
       "mycluster" ⟨false, 7, 8, 9, 10⟩ rfl).2.1.2.2.2.1]
     decide!,
   (recordMetrics_failed (recordMetrics Registry.empty "mycluster" ⟨true, 1024, 50, 30, 200⟩)
     "mycluster" ⟨false, 7, 8, 9, 10⟩ rfl).1.1⟩

/-- C10: in every registry reached from the empty one by a sequence of calls of
`recordMetrics`, the attempt counter of every cluster label is the sum of its success
and failure counters; each call adds exactly one to the attempt counter of its label and
exactly one to exactly one of the success and failure counters of that label, and
nothing to the counters of other labels; and no counter is lower after a longer sequence
than after a shorter one it extends. -/
theorem recordAll_attempts_eq_success_add_failure :
    (∀ (calls : List (String × BackupMetrics)) (k : String),
      (recordAll Registry.empty calls).attemptsCounter.value k
        = (recordAll Registry.empty calls).successCounter.value k
          + (recordAll Registry.empty calls).failureCounter.value k) ∧
    (∀ (reg : Registry) (c : String) (m : BackupMetrics) (k : String),
      (recordMetrics reg c m).attemptsCounter.value k
        = reg.attemptsCounter.value k + (if k = c then 1 else 0) ∧
      (recordMetrics reg c m).successCounter.value k
        = reg.successCounter.value k + (if k = c ∧ m.Successful = true then 1 else 0) ∧
      (recordMetrics reg c m).failureCounter.value k
        = reg.failureCounter.value k + (if k = c ∧ m.Successful = false then 1 else 0)) ∧
    (∀ (calls more : List (String × BackupMetrics)) (k : String),
      (recordAll Registry.empty calls).attemptsCounter.value k
        ≤ (recordAll Registry.empty (calls ++ more)).attemptsCounter.value k ∧
      (recordAll Registry.empty calls).successCounter.value k
        ≤ (recordAll Registry.empty (calls ++ more)).successCounter.value k ∧
      (recordAll Registry.empty calls).failureCounter.value k
        ≤ (recordAll Registry.empty (calls ++ more)).failureCounter.value k) := by
  refine ⟨?_, recordMetrics_counters, ?_⟩
  · intro calls k
    exact recordAll_balance Registry.empty calls k rfl
  · intro calls more k
    rw [recordAll_append]
    exact recordAll_counters_mono _ more k

/-! ## The fuel of the readers is enough -/

/-- Skipping white space does not lengthen the input. -/
theorem skipSpace_length_le (s : List Char) : (skipSpace s).length ≤ s.length := by
  induction s with
  | nil => simp [skipSpace]
  | cons c r ih =>
    simp only [skipSpace]
    split
    · simp only [List.length_cons]; omega
    · exact Nat.le_refl _

/-- Four hexadecimal digits take four characters. -/
theorem readHex4_rest (s : List Char) (r : Nat) (rest : List Char)
    (h : readHex4 s = .ok (r, rest)) : rest.length + 4 = s.length := by
  match s with
  | [] => simp [readHex4] at h
  | [a] => simp [readHex4] at h; split at h <;> cases h
  | [a, b] => simp [readHex4] at h; split at h <;> cases h
  | [a, b, c] => simp [readHex4] at h; split at h <;> cases h
  | a :: b :: c :: d :: tl =>
    simp only [readHex4] at h
    split at h
    · cases h; simp
    · cases h

/-- An escaped low surrogate takes six characters. -/
theorem peekLowSurrogate_rest (s : List Char) (lo : Nat) (rest : List Char)
    (h : peekLowSurrogate s = some (lo, rest)) : rest.length + 6 = s.length := by
  unfold peekLowSurrogate at h
  split at h
  · split at h
    · split at h
      · rename_i lo1 rest1 hx
        have h4 := readHex4_rest _ _ _ hx
        split at h
        · simp only [Option.some.injEq, Prod.mk.injEq] at h
          rw [← h.2]; simp only [List.length_cons]; omega
        · cases h
      · cases h
    · cases h
  · cases h

/-- A string literal takes at least its closing quote. -/
theorem readString_rest (fuel : Nat) (s cs rest : List Char)
    (h : readString fuel s = .ok (cs, rest)) : rest.length < s.length := by
  induction fuel generalizing s cs rest with
  | zero => simp [readString] at h
  | succ f ih =>
    cases s with
    | nil => simp [readString] at h
    | cons c r =>
      simp only [readString] at h
      split at h
      · cases h; simp
      · split at h
        · split at h
          · cases h
          · rename_i e rest1
            split at h
            · split at h
              · cases h
              · rename_i rr rest2 hx
                have h4 := readHex4_rest _ _ _ hx
                split at h
                · split at h
                  · rename_i lo rest3 hp
                    have hp2 : peekLowSurrogate rest2 = some (lo, rest3) := by
                      split at hp
                      · exact hp
                      · cases hp
                    have h6 := peekLowSurrogate_rest _ _ _ hp2
                    cases hr : readString f rest3 with
                    | error e => rw [hr] at h; cases h
                    | ok p =>
                      rw [hr] at h
                      have := ih rest3 p.1 p.2 hr
                      cases h
                      simp only [List.length_cons]; omega
                  · cases hr : readString f rest2 with
                    | error e => rw [hr] at h; cases h
                    | ok p =>
                      rw [hr] at h
                      have := ih rest2 p.1 p.2 hr
                      cases h
                      simp only [List.length_cons]; omega
                · cases hr : readString f rest2 with
                  | error e => rw [hr] at h; cases h
                  | ok p =>
                    rw [hr] at h
                    have := ih rest2 p.1 p.2 hr
                    cases h
                    simp only [List.length_cons]; omega
            · split at h
              · cases hr : readString f rest1 with
                | error e => rw [hr] at h; cases h
                | ok p =>
                  rw [hr] at h
                  have := ih rest1 p.1 p.2 hr
                  cases h
                  simp only [List.length_cons]; omega
              · cases h
        · split at h
          · cases h
          · cases hr : readString f r with
            | error e => rw [hr] at h; cases h
            | ok p =>
              rw [hr] at h
              have := ih r p.1 p.2 hr
              cases h
              simp only [List.length_cons]; omega

/-- More fuel than the input is long does not change what `readString` reads. -/
theorem readString_fuel (fuel : Nat) (s : List Char) (h : s.length < fuel) :
    readString (fuel + 1) s = readString fuel s := by
  induction fuel generalizing s with
  | zero => omega
  | succ f ih =>
    cases s with
    | nil => simp [readString]
    | cons c r =>
      simp only [List.length_cons] at h
      simp only [readString]
      split
      · rfl
      · split
        · split
          · rfl
          · rename_i e rest1
            simp only [List.length_cons] at h
            split
            · split
              · rfl
              · rename_i rr rest2 hx
                have h4 := readHex4_rest _ _ _ hx
                simp only [List.length_cons] at h4
                have e2 : readString (f + 1) rest2 = readString f rest2 := ih rest2 (by omega)
                rw [e2]
                split
                · split
                  · rename_i lo rest3 hp
                    have hp2 : peekLowSurrogate rest2 = some (lo, rest3) := by
                      split at hp
                      · exact hp
                      · cases hp
                    have h6 := peekLowSurrogate_rest _ _ _ hp2
                    rw [ih rest3 (by omega)]
                  · rfl
                · rfl
            · split
              · rw [ih rest1 (by omega)]
              · rfl
        · split
          · rfl
          · rw [ih r (by omega)]

/-- What follows a run of digits is part of the input. -/
theorem spanDigits_rest (s : List Char) : (spanDigits s).2.length ≤ s.length := by
  induction s with
  | nil => simp [spanDigits]
  | cons c r ih =>
    simp only [spanDigits]
    split
    · simp only [List.length_cons]; omega
    · exact Nat.le_refl _

/-- What follows a run of digits is no longer than the input. -/
theorem readDigits1_rest (s lit rest : List Char) (h : readDigits1 s = .ok (lit, rest)) :
    rest.length ≤ s.length := by
  unfold readDigits1 at h
  split at h
  · cases h
  · split at h
    · simp only [Except.ok.injEq] at h
      have h2 : (spanDigits _).2 = rest := congrArg Prod.snd h
      rw [← h2]; exact spanDigits_rest _
    · cases h

/-- What follows the integer part is no longer than the input. -/
theorem readIntPart_rest (s lit rest : List Char) (h : readIntPart s = .ok (lit, rest)) :
    rest.length ≤ s.length := by
  unfold readIntPart at h
  split at h
  · cases h
  · split at h
    · cases h; simp
    · split at h
      · simp only [Except.ok.injEq] at h
        have h2 : (spanDigits _).2 = rest := congrArg Prod.snd h
        rw [← h2]; exact spanDigits_rest _
      · cases h

/-- The input left by a reader whose result is mapped. -/
theorem map_ok_rest {α : Type} (f : List Char × List Char → α)
    (x : Except DecodeError (List Char × List Char))
    (a : α) (rest : List Char) (h : x.map (fun p => (f p, p.2)) = .ok (a, rest)) :
    ∃ p, x = .ok p ∧ p.2 = rest := by
  cases x with
  | error e => cases h
  | ok p =>
    refine ⟨p, rfl, ?_⟩
    simp only [Except.map, Except.ok.injEq, Prod.mk.injEq] at h
    exact h.2

/-- What follows the fraction is no longer than the input. -/
theorem readFraction_rest (s lit rest : List Char) (h : readFraction s = .ok (lit, rest)) :
    rest.length ≤ s.length := by
  unfold readFraction at h
  split at h
  · cases h; simp
  · split at h
    · obtain ⟨p, hp, hr⟩ := map_ok_rest _ _ _ _ h
      have := readDigits1_rest _ p.1 p.2 hp
      rw [← hr]; simp only [List.length_cons]; omega
    · cases h; exact Nat.le_refl _

/-- What follows the exponent is no longer than the input. -/
theorem readExponent_rest (s lit rest : List Char) (h : readExponent s = .ok (lit, rest)) :
    rest.length ≤ s.length := by
  unfold readExponent at h
  split at h
  · cases h; simp
  · split at h
    · split at h
      · cases h
      · split at h
        · obtain ⟨p, hp, hr⟩ := map_ok_rest _ _ _ _ h
          have := readDigits1_rest _ p.1 p.2 hp
          rw [← hr]; simp only [List.length_cons]; omega
        · obtain ⟨p, hp, hr⟩ := map_ok_rest _ _ _ _ h
          have := readDigits1_rest _ p.1 p.2 hp
          rw [← hr]; simp only [List.length_cons] at this ⊢; omega
    · cases h; exact Nat.le_refl _

/-- What follows the sign is no longer than the input. -/
theorem readSign_rest (s : List Char) : (readSign s).2.length ≤ s.length := by
  unfold readSign
  split
  · simp
  · split
    · simp
    · exact Nat.le_refl _

/-- What follows a number is no longer than the input. -/
theorem readNumber_rest (s lit rest : List Char) (h : readNumber s = .ok (lit, rest)) :
    rest.length ≤ s.length := by
  unfold readNumber at h
  have h0 := readSign_rest s
  split at h
  · cases h
  · rename_i int s2 hi
    have h1 := readIntPart_rest _ _ _ hi
    split at h
    · cases h
    · rename_i frac s3 hfr
      have h2 := readFraction_rest _ _ _ hfr
      split at h
      · cases h
      · rename_i exp s4 hex
        have h3 := readExponent_rest _ _ _ hex
        simp only [Except.ok.injEq, Prod.mk.injEq] at h
        rw [← h.2]
        omega

/-- What follows a literal name is no longer than the input. -/
theorem readName_rest (name s rest : List Char) (h : readName name s = .ok rest) :
    rest.length ≤ s.length := by
  induction name generalizing s with
  | nil => simp only [readName] at h; cases h; exact Nat.le_refl _
  | cons n name ih =>
    cases s with
    | nil => simp [readName] at h
    | cons c r =>
      simp only [readName] at h
      split at h
      · have := ih r h
        simp only [List.length_cons]; omega
      · cases h

/-- The input after its first character that is not white space is shorter. -/
theorem skipSpace_cons_length (s : List Char) (c : Char) (r : List Char)
    (h : skipSpace s = c :: r) : r.length + 1 ≤ s.length := by
  have := skipSpace_length_le s
  rw [h] at this
  simpa using this

/-- The input left by a reader whose value is mapped. -/
theorem map_ok_rest1 {α β : Type} (f : β → α) (x : Except DecodeError (β × List Char))
    (a : α) (rest : List Char) (h : x.map (fun p => (f p.1, p.2)) = .ok (a, rest)) :
    ∃ p, x = .ok p ∧ p.2 = rest := by
  cases x with
  | error e => cases h
  | ok p =>
    refine ⟨p, rfl, ?_⟩
    simp only [Except.map, Except.ok.injEq, Prod.mk.injEq] at h
    exact h.2

/-- The input left by a reader to whose result a value is added. -/
theorem map_ok_rest0 {α : Type} (a0 : α) (x : Except DecodeError (List Char))
    (a : α) (rest : List Char) (h : x.map (fun r => (a0, r)) = .ok (a, rest)) :
    x = .ok rest := by
  cases x with
  | error e => cases h
  | ok p =>
    simp only [Except.map, Except.ok.injEq, Prod.mk.injEq] at h
    rw [h.2]

/-- What the readers of values, elements and members leave is no longer than their
input. -/
theorem readers_rest (fuel : Nat) :
    (∀ (d : Nat) (s : List Char) (v : JValue) (rest : List Char),
      readValue fuel d s = .ok (v, rest) → rest.length ≤ s.length) ∧
    (∀ (d : Nat) (s rest : List Char),
      readElements fuel d s = .ok rest → rest.length ≤ s.length) ∧
    (∀ (d : Nat) (s : List Char) (ms : List (String × JValue)) (rest : List Char),
      readMembers fuel d s = .ok (ms, rest) → rest.length ≤ s.length) := by
  induction fuel with
  | zero =>
    refine ⟨?_, ?_, ?_⟩
    · intro d s v rest h; rw [readValue.eq_def] at h; cases h
    · intro d s rest h; rw [readElements.eq_def] at h; cases h
    · intro d s ms rest h; rw [readMembers.eq_def] at h; cases h
  | succ f ih =>
    obtain ⟨ihV, ihE, ihM⟩ := ih
    refine ⟨?_, ?_, ?_⟩
    · intro d s v rest h
      rw [readValue.eq_def] at h
      dsimp only at h
      split at h
      · cases h
      · rename_i c r hs
        have hl := skipSpace_cons_length _ _ _ hs
        split at h
        · split at h
          · cases h
          · split at h
            · cases h
            · rename_i c1 r1 hs1
              have hl1 := skipSpace_cons_length _ _ _ hs1
              split at h
              · simp only [Except.ok.injEq, Prod.mk.injEq] at h
                rw [← h.2]; omega
              · obtain ⟨p, hp, hr⟩ := map_ok_rest1 (fun _ => JValue.object) _ _ _ h
                have := ihM _ _ p.1 p.2 hp
                rw [← hr]; simp only [List.length_cons] at this; omega
        · split at h
          · split at h
            · cases h
            · split at h
              · cases h
              · rename_i c1 r1 hs1
                have hl1 := skipSpace_cons_length _ _ _ hs1
                split at h
                · simp only [Except.ok.injEq, Prod.mk.injEq] at h
                  rw [← h.2]; omega
                · have hp := map_ok_rest0 _ _ _ _ h
                  have := ihE _ _ _ hp
                  simp only [List.length_cons] at this; omega
          · split at h
            · obtain ⟨p, hp, hr⟩ := map_ok_rest1 (fun x => JValue.string (String.mk x)) _ _ _ h
              have := readString_rest _ _ p.1 p.2 hp
              rw [← hr]; omega
            · split at h
              · obtain ⟨p, hp, hr⟩ := map_ok_rest1 (fun x => JValue.number x) _ _ _ h
                have := readNumber_rest _ p.1 p.2 hp
                rw [← hr]; simp only [List.length_cons] at this; omega
              · split at h
                · have hp := map_ok_rest0 _ _ _ _ h
                  have := readName_rest _ _ _ hp
                  omega
                · split at h
                  · have hp := map_ok_rest0 _ _ _ _ h
                    have := readName_rest _ _ _ hp
                    omega
                  · split at h
                    · have hp := map_ok_rest0 _ _ _ _ h
                      have := readName_rest _ _ _ hp
                      omega
                    · cases h
    · intro d s rest h
      rw [readElements.eq_def] at h
      dsimp only at h
      split at h
      · cases h
      · rename_i v r hv
        have h1 := ihV _ _ _ _ hv
        split at h
        · cases h
        · rename_i c r1 hs
          have hl := skipSpace_cons_length _ _ _ hs
          split at h
          · have := ihE _ _ _ h
            omega
          · split at h
            · simp only [Except.ok.injEq] at h
              rw [← h]; omega
            · cases h
    · intro d s ms rest h
      rw [readMembers.eq_def] at h
      dsimp only at h
      split at h
      · cases h
      · rename_i q aq
        split at h
        · split at h
          · cases h
          · rename_i key r hk
            have h1 := readString_rest _ _ _ _ hk
            split at h
            · cases h
            · rename_i colon r1 hs
              have hl := skipSpace_cons_length _ _ _ hs
              split at h
              · split at h
                · cases h
                · rename_i v r2 hv
                  have h2 := ihV _ _ _ _ hv
                  split at h
                  · cases h
                  · rename_i c r3 hs3
                    have hl3 := skipSpace_cons_length _ _ _ hs3
                    split at h
                    · cases hm : readMembers f d (skipSpace r3) with
                      | error e => rw [hm] at h; cases h
                      | ok p =>
                        rw [hm] at h
                        simp only [Except.map, Except.ok.injEq, Prod.mk.injEq] at h
                        have h4 := ihM _ _ p.1 p.2 hm
                        have h5 := skipSpace_length_le r3
                        rw [← h.2]; simp only [List.length_cons]; omega
                    · split at h
                      · simp only [Except.ok.injEq, Prod.mk.injEq] at h
                        rw [← h.2]; simp only [List.length_cons]; omega
                      · cases h
              · cases h
        · cases h

/-- Once the fuel exceeds twice the length of the input by one (values) or two (elements
and members), one more unit of fuel does not change what is read. -/
theorem readers_fuel (fuel : Nat) :
    (∀ (d : Nat) (s : List Char), 2 * s.length + 1 ≤ fuel →
      readValue (fuel + 1) d s = readValue fuel d s) ∧
    (∀ (d : Nat) (s : List Char), 2 * s.length + 2 ≤ fuel →
      readElements (fuel + 1) d s = readElements fuel d s) ∧
    (∀ (d : Nat) (s : List Char), 2 * s.length + 2 ≤ fuel →
      readMembers (fuel + 1) d s = readMembers fuel d s) := by
  induction fuel with
  | zero =>
    refine ⟨?_, ?_, ?_⟩ <;> intro d s h <;> omega
  | succ f ih =>
    obtain ⟨ihV, ihE, ihM⟩ := ih
    refine ⟨?_, ?_, ?_⟩
    · intro d s h
      rw [readValue.eq_def]
      conv_rhs => rw [readValue.eq_def]
      dsimp only
      split
      · rfl
      · rename_i c r hs
        have hl := skipSpace_cons_length _ _ _ hs
        split
        · split
          · rfl
          · split
            · rfl
            · rename_i c1 r1 hs1
              have hl1 := skipSpace_cons_length _ _ _ hs1
              split
              · rfl
              · rw [ihM _ (c1 :: r1) (by simp only [List.length_cons]; omega)]
        · split
          · split
            · rfl
            · split
              · rfl
              · rename_i c1 r1 hs1
                have hl1 := skipSpace_cons_length _ _ _ hs1
                split
                · rfl
                · rw [ihE _ (c1 :: r1) (by simp only [List.length_cons]; omega)]
          · split
            · rw [readString_fuel (f + 1) r (by omega)]
            · rfl
    · intro d s h
      rw [readElements.eq_def]
      conv_rhs => rw [readElements.eq_def]
      dsimp only
      rw [ihV d s (by omega)]
      split
      · rfl
      · rename_i v r hv
        have h1 := (readers_rest f).1 _ _ _ _ hv
        split
        · rfl
        · rename_i c r1 hs
          have hl := skipSpace_cons_length _ _ _ hs
          split
          · exact ihE _ _ (by omega)
          · rfl
    · intro d s h
      rw [readMembers.eq_def]
      conv_rhs => rw [readMembers.eq_def]
      dsimp only
      split
      · rfl
      · rename_i q aq
        simp only [List.length_cons] at h
        split
        · rw [readString_fuel (f + 1) aq (by omega)]
          split
          · rfl
          · rename_i key r hk
            have h1 := readString_rest _ _ _ _ hk
            split
            · rfl
            · rename_i colon r1 hs
              have hl := skipSpace_cons_length _ _ _ hs
              split
              · rw [ihV d r1 (by omega)]
                split
                · rfl
                · rename_i v r2 hv
                  have h2 := (readers_rest f).1 _ _ _ _ hv
                  split
                  · rfl
                  · rename_i c r3 hs3
                    have hl3 := skipSpace_cons_length _ _ _ hs3
                    have h5 := skipSpace_length_le r3
                    split
                    · rw [ihM d (skipSpace r3) (by omega)]
                    · rfl
              · rfl
        · rfl

/-- More fuel than twice the length of the body and one does not change what is read. -/
theorem readTopWith_fuel (body : List Char) (k : Nat) :
    readTopWith (2 * body.length + 1 + k) body = readTop body := by
  induction k with
  | zero => rfl
  | succ k ih =>
    rw [← ih]
    unfold readTopWith
    split
    · rfl
    · rename_i c r hs
      have hl := skipSpace_cons_length _ _ _ hs
      split
      · split
        · rfl
        · rename_i c1 r1 hs1
          have hl1 := skipSpace_cons_length _ _ _ hs1
          split
          · rfl
          · rw [show 2 * body.length + 1 + (k + 1) = (2 * body.length + 1 + k) + 1 from rfl,
              (readers_fuel _).2.2 1 (c1 :: r1) (by simp only [List.length_cons]; omega)]
      · rw [show 2 * body.length + 1 + (k + 1) = (2 * body.length + 1 + k) + 1 from rfl,
          (readers_fuel _).1 0 (c :: r) (by
            have := skipSpace_length_le body
            rw [hs] at this
            omega)]

/-! ## Text after the first value is not examined -/

/-- Skipping white space in front of a character is not changed by text appended. -/
theorem skipSpace_append (s : List Char) (c : Char) (r extra : List Char)
    (h : skipSpace s = c :: r) : skipSpace (s ++ extra) = c :: (r ++ extra) := by
  induction s with
  | nil => simp [skipSpace] at h
  | cons x xs ih =>
    simp only [skipSpace, List.cons_append] at h ⊢
    split
    · rename_i hx
      rw [if_pos hx] at h
      exact ih h
    · rename_i hx
      rw [if_neg hx] at h
      simp only [List.cons.injEq] at h
      rw [h.1, h.2]
      rfl

/-- Four hexadecimal digits read the same with text appended. -/
theorem readHex4_append (s : List Char) (n : Nat) (r extra : List Char)
    (h : readHex4 s = .ok (n, r)) : readHex4 (s ++ extra) = .ok (n, r ++ extra) := by
  match s with
  | [] => simp [readHex4] at h
  | [a] => simp [readHex4] at h; split at h <;> cases h
  | [a, b] => simp [readHex4] at h; split at h <;> cases h
  | [a, b, c] => simp [readHex4] at h; split at h <;> cases h
  | a :: b :: c :: d :: tl =>
    simp only [readHex4, List.cons_append] at h ⊢
    split at h
    · rename_i x y z w hx hy hz hw
      simp only [Except.ok.injEq, Prod.mk.injEq] at h
      rw [← h.1, ← h.2]
    · cases h

/-- An escaped low surrogate is found again with text appended. -/
theorem peekLowSurrogate_append (s : List Char) (lo : Nat) (r extra : List Char)
    (h : peekLowSurrogate s = some (lo, r)) :
    peekLowSurrogate (s ++ extra) = some (lo, r ++ extra) := by
  unfold peekLowSurrogate at h
  split at h
  · rename_i b u digits
    split at h
    · rename_i hbu
      split at h
      · rename_i lo1 rest1 hx
        split at h
        · rename_i hlo
          simp only [Option.some.injEq, Prod.mk.injEq] at h
          simp only [peekLowSurrogate, List.cons_append, if_pos hbu,
            readHex4_append _ _ _ extra hx, if_pos hlo]
          rw [h.1, h.2]
        · cases h
      · cases h
    · cases h
  · cases h

/-- Where no escaped low surrogate follows and a string can be read, none follows
with text appended. -/
theorem peekLowSurrogate_append_none (fuel : Nat) (s cs rest extra : List Char)
    (h : peekLowSurrogate s = none) (hr : readString fuel s = .ok (cs, rest)) :
    peekLowSurrogate (s ++ extra) = none := by
  cases fuel with
  | zero => simp [readString] at hr
  | succ f =>
    match s with
    | [] => simp [readString] at hr
    | [x] =>
      simp only [readString] at hr
      split at hr
      · rename_i hx
        subst hx
        cases extra with
        | nil => rfl
        | cons e es => simp [peekLowSurrogate]
      · split at hr
        · simp at hr
        · split at hr
          · cases hr
          · simp [readString, Except.map] at hr
            cases f <;> simp [readString] at hr
    | b :: u :: digits =>
      simp only [peekLowSurrogate, List.cons_append] at h ⊢
      split
      · rename_i hbu
        rw [if_pos hbu] at h
        cases hx : readHex4 digits with
        | ok p =>
          obtain ⟨lo, rest1⟩ := p
          rw [hx] at h
          simp only at h
          rw [readHex4_append _ _ _ extra hx]
          simp only
          split
          · rename_i hlo
            rw [if_pos hlo] at h
            cases h
          · rfl
        | error e =>
          exfalso
          obtain ⟨hb, hu⟩ := hbu
          subst hb; subst hu
          simp [readString, hx] at hr
      · rfl

/-- A mapped reader that succeeds: the reader succeeded. -/
theorem map_cons_ok (x : Except DecodeError (List Char × List Char)) (a : Char)
    (cs rest : List Char) (h : x.map (fun p => (a :: p.1, p.2)) = .ok (cs, rest)) :
    ∃ cs1, x = .ok (cs1, rest) ∧ cs = a :: cs1 := by
  cases x with
  | error e => cases h
  | ok p =>
    obtain ⟨p1, p2⟩ := p
    simp only [Except.map, Except.ok.injEq, Prod.mk.injEq] at h
    exact ⟨p1, by rw [h.2], h.1.symm⟩

/-- A string literal reads the same with text appended to the input. -/
theorem readString_append (fuel : Nat) (s cs rest extra : List Char)
    (h : readString fuel s = .ok (cs, rest)) :
    readString fuel (s ++ extra) = .ok (cs, rest ++ extra) := by
  induction fuel generalizing s cs rest with
  | zero => simp [readString] at h
  | succ f ih =>
    cases s with
    | nil => simp [readString] at h
    | cons c r =>
      rw [List.cons_append]
      simp only [readString] at h ⊢
      split at h
      · rename_i hc
        simp only [Except.ok.injEq, Prod.mk.injEq] at h
        rw [if_pos hc, ← h.1, ← h.2]
      · rename_i hc
        rw [if_neg hc]
        split at h
        · rename_i hb
          rw [if_pos hb]
          cases r with
          | nil => cases h
          | cons e rest1 =>
            rw [List.cons_append]
            simp only at h ⊢
            split at h
            · rename_i hu
              rw [if_pos hu]
              cases hx : readHex4 rest1 with
              | error err => rw [hx] at h; cases h
              | ok p =>
                obtain ⟨rr, rest2⟩ := p
                rw [hx] at h
                rw [readHex4_append _ _ _ extra hx]
                simp only at h ⊢
                split at h
                · rename_i hsur
                  rw [if_pos hsur]
                  split at h
                  · rename_i lo rest3 hp
                    obtain ⟨cs1, h1, h2⟩ := map_cons_ok _ _ _ _ h
                    split at hp
                    · rename_i hlt
                      rw [if_pos hlt, peekLowSurrogate_append _ _ _ extra hp]
                      simp only
                      rw [ih _ _ _ h1, h2]
                      rfl
                    · cases hp
                  · rename_i hp
                    obtain ⟨cs1, h1, h2⟩ := map_cons_ok _ _ _ _ h
                    have hnone : (if rr < 0xDC00 then peekLowSurrogate (rest2 ++ extra)
                        else none) = none := by
                      split
                      · rename_i hlt
                        rw [if_pos hlt] at hp
                        exact peekLowSurrogate_append_none f _ _ _ extra hp h1
                      · rfl
                    rw [hnone]
                    simp only
                    rw [ih _ _ _ h1, h2]
                    rfl
                · rename_i hsur
                  rw [if_neg hsur]
                  obtain ⟨cs1, h1, h2⟩ := map_cons_ok _ _ _ _ h
                  rw [ih _ _ _ h1, h2]
                  rfl
            · rename_i hu
              rw [if_neg hu]
              split at h
              · obtain ⟨cs1, h1, h2⟩ := map_cons_ok _ _ _ _ h
                rw [ih _ _ _ h1, h2]
                rfl
              · cases h
        · rename_i hb
          rw [if_neg hb]
          split at h
          · cases h
          · rename_i hctl
            rw [if_neg hctl]
            obtain ⟨cs1, h1, h2⟩ := map_cons_ok _ _ _ _ h
            rw [ih _ _ _ h1, h2]
            rfl

/-- A list of positive length has a head. -/
theorem exists_cons_of_length_pos (s : List Char) (h : 0 < s.length) :
    ∃ c r, s = c :: r := by
  cases s with
  | nil => simp at h
  | cons c r => exact ⟨c, r, rfl⟩

/-- A run of digits that ends inside the input is the same with text appended. -/
theorem spanDigits_append_cons (s ds : List Char) (c : Char) (r extra : List Char)
    (h : spanDigits s = (ds, c :: r)) : spanDigits (s ++ extra) = (ds, c :: (r ++ extra)) := by
  induction s generalizing ds with
  | nil => simp [spanDigits] at h
  | cons x xs ih =>
    rw [List.cons_append]
    simp only [spanDigits] at h ⊢
    split
    · rename_i hx
      rw [if_pos hx] at h
      simp only [Prod.mk.injEq] at h
      have h2 : spanDigits xs = ((spanDigits xs).1, c :: r) := by
        rw [← h.2]
      rw [ih _ h2, ← h.1]
    · rename_i hx
      rw [if_neg hx] at h
      simp only [Prod.mk.injEq, List.cons.injEq] at h
      rw [← h.1, h.2.1, h.2.2]

/-- A run of digits that ends inside the input reads the same with text appended. -/
theorem readDigits1_append (s ds : List Char) (c : Char) (r extra : List Char)
    (h : readDigits1 s = .ok (ds, c :: r)) :
    readDigits1 (s ++ extra) = .ok (ds, c :: (r ++ extra)) := by
  cases s with
  | nil => simp [readDigits1] at h
  | cons x xs =>
    rw [List.cons_append]
    simp only [readDigits1] at h ⊢
    split
    · rename_i hx
      rw [if_pos hx] at h
      simp only [Except.ok.injEq] at h
      have := spanDigits_append_cons _ _ _ _ extra h
      rw [List.cons_append] at this
      rw [this]
    · rename_i hx
      rw [if_neg hx] at h
      cases h

/-- An integer part that ends inside the input reads the same with text appended. -/
theorem readIntPart_append (s ds : List Char) (c : Char) (r extra : List Char)
    (h : readIntPart s = .ok (ds, c :: r)) :
    readIntPart (s ++ extra) = .ok (ds, c :: (r ++ extra)) := by
  cases s with
  | nil => simp [readIntPart] at h
  | cons x xs =>
    rw [List.cons_append]
    simp only [readIntPart] at h ⊢
    split
    · rename_i hx
      rw [if_pos hx] at h
      simp only [Except.ok.injEq, Prod.mk.injEq] at h
      rw [← h.1, h.2]
      rfl
    · rename_i hx
      rw [if_neg hx] at h
      split
      · rename_i hd
        rw [if_pos hd] at h
        simp only [Except.ok.injEq] at h
        have := spanDigits_append_cons _ _ _ _ extra h
        rw [List.cons_append] at this
        rw [this]
      · rename_i hd
        rw [if_neg hd] at h
        cases h

/-- A fraction that ends inside the input reads the same with text appended. -/
theorem readFraction_append (s ds : List Char) (c : Char) (r extra : List Char)
    (h : readFraction s = .ok (ds, c :: r)) :
    readFraction (s ++ extra) = .ok (ds, c :: (r ++ extra)) := by
  cases s with
  | nil => simp [readFraction] at h
  | cons x xs =>
    rw [List.cons_append]
    simp only [readFraction] at h ⊢
    split
    · rename_i hx
      rw [if_pos hx] at h
      obtain ⟨cs1, h1, h2⟩ := map_cons_ok _ _ _ _ h
      rw [readDigits1_append _ _ _ _ extra h1, h2]
      rfl
    · rename_i hx
      rw [if_neg hx] at h
      simp only [Except.ok.injEq, Prod.mk.injEq, List.cons.injEq] at h
      rw [← h.1, h.2.1, h.2.2]

/-- A mapped reader that succeeds: the reader succeeded (two characters added). -/
theorem map_cons2_ok (x : Except DecodeError (List Char × List Char)) (a b : Char)
    (cs rest : List Char) (h : x.map (fun p => (a :: b :: p.1, p.2)) = .ok (cs, rest)) :
    ∃ cs1, x = .ok (cs1, rest) ∧ cs = a :: b :: cs1 := by
  cases x with
  | error e => cases h
  | ok p =>
    obtain ⟨p1, p2⟩ := p
    simp only [Except.map, Except.ok.injEq, Prod.mk.injEq] at h
    exact ⟨p1, by rw [h.2], h.1.symm⟩

/-- An exponent that ends inside the input reads the same with text appended. -/
theorem readExponent_append (s ds : List Char) (c : Char) (r extra : List Char)
    (h : readExponent s = .ok (ds, c :: r)) :
    readExponent (s ++ extra) = .ok (ds, c :: (r ++ extra)) := by
  cases s with
  | nil => simp [readExponent] at h
  | cons x xs =>
    rw [List.cons_append]
    simp only [readExponent] at h ⊢
    split
    · rename_i hx
      rw [if_pos hx] at h
      cases xs with
      | nil => cases h
      | cons sg r1 =>
        rw [List.cons_append]
        simp only at h ⊢
        split
        · rename_i hs
          rw [if_pos hs] at h
          obtain ⟨cs1, h1, h2⟩ := map_cons2_ok _ _ _ _ _ h
          rw [readDigits1_append _ _ _ _ extra h1, h2]
          rfl
        · rename_i hs
          rw [if_neg hs] at h
          obtain ⟨cs1, h1, h2⟩ := map_cons_ok _ _ _ _ h
          have := readDigits1_append _ _ _ _ extra h1
          rw [List.cons_append] at this
          rw [this, h2]
          rfl
    · rename_i hx
      rw [if_neg hx] at h
      simp only [Except.ok.injEq, Prod.mk.injEq, List.cons.injEq] at h
      rw [← h.1, h.2.1, h.2.2]

/-- The sign of a non-empty input is the same with text appended. -/
theorem readSign_append (x : Char) (xs extra : List Char) :
    readSign (x :: xs ++ extra) = ((readSign (x :: xs)).1, (readSign (x :: xs)).2 ++ extra) := by
  rw [List.cons_append]
  simp only [readSign]
  split <;> rfl

/-- A number that ends inside the input reads the same with text appended. -/
theorem readNumber_append (s lit : List Char) (c : Char) (r extra : List Char)
    (h : readNumber s = .ok (lit, c :: r)) :
    readNumber (s ++ extra) = .ok (lit, c :: (r ++ extra)) := by
  unfold readNumber at h
  split at h
  · cases h
  · rename_i int s2 hi
    split at h
    · cases h
    · rename_i frac s3 hfr
      split at h
      · cases h
      · rename_i exp s4 hex
        simp only [Except.ok.injEq, Prod.mk.injEq] at h
        obtain ⟨hl, h4⟩ := h
        subst h4
        have l3 := readExponent_rest _ _ _ hex
        have l2 := readFraction_rest _ _ _ hfr
        have l1 := readIntPart_rest _ _ _ hi
        have l0 := readSign_rest s
        simp only [List.length_cons] at l3
        obtain ⟨c3, r3, rfl⟩ := exists_cons_of_length_pos s3 (by omega)
        obtain ⟨c2, r2, rfl⟩ := exists_cons_of_length_pos s2 (by simp only [List.length_cons] at l2; omega)
        obtain ⟨x, xs, rfl⟩ := exists_cons_of_length_pos s (by
          simp only [List.length_cons] at l2 l1; omega)
        have e0 := readSign_append x xs extra
        obtain ⟨c1, r1, hs1⟩ := exists_cons_of_length_pos (readSign (x :: xs)).2 (by
          simp only [List.length_cons] at l2 l1; omega)
        rw [hs1] at hi
        have e1 := readIntPart_append _ _ _ _ extra hi
        have e2 := readFraction_append _ _ _ _ extra hfr
        have e3 := readExponent_append _ _ _ _ extra hex
        unfold readNumber
        rw [e0]
        simp only [hs1, List.cons_append] at e1 e2 e3 ⊢
        rw [e1]
        simp only
        rw [e2]
        simp only
        rw [e3]
        simp only
        rw [← hl]

/-- A literal name reads the same with text appended. -/
theorem readName_append (name s rest extra : List Char) (h : readName name s = .ok rest) :
    readName name (s ++ extra) = .ok (rest ++ extra) := by
  induction name generalizing s with
  | nil =>
    simp only [readName, Except.ok.injEq] at h ⊢
    rw [h]
  | cons n name ih =>
    cases s with
    | nil => simp [readName] at h
    | cons c r =>
      rw [List.cons_append]
      simp only [readName] at h ⊢
      split
      · rename_i hc
        rw [if_pos hc] at h
        exact ih _ h
      · rename_i hc
        rw [if_neg hc] at h
        cases h

/-- A reader whose value is mapped and that succeeds: the reader succeeded. -/
theorem map_snd_ok {α β : Type} (f : β → α) (x : Except DecodeError (β × List Char))
    (a : α) (rest : List Char) (h : x.map (fun p => (f p.1, p.2)) = .ok (a, rest)) :
    ∃ b, x = .ok (b, rest) ∧ a = f b := by
  cases x with
  | error e => cases h
  | ok p =>
    obtain ⟨p1, p2⟩ := p
    simp only [Except.map, Except.ok.injEq, Prod.mk.injEq] at h
    exact ⟨p1, by rw [h.2], h.1.symm⟩

/-- A reader to whose result a value is added and that succeeds: the reader succeeded. -/
theorem map_pair_ok {α : Type} (a0 : α) (x : Except DecodeError (List Char))
    (a : α) (rest : List Char) (h : x.map (fun r => (a0, r)) = .ok (a, rest)) :
    x = .ok rest ∧ a = a0 := by
  cases x with
  | error e => cases h
  | ok p =>
    simp only [Except.map, Except.ok.injEq, Prod.mk.injEq] at h
    exact ⟨by rw [h.2], h.1.symm⟩

/-- What the readers of values, elements and members read is not changed by text
appended to the input; for a value, provided it ends inside the input. -/
theorem readers_append (extra : List Char) (fuel : Nat) :
    (∀ (d : Nat) (s : List Char) (v : JValue) (c : Char) (r : List Char),
      readValue fuel d s = .ok (v, c :: r) →
      readValue fuel d (s ++ extra) = .ok (v, c :: (r ++ extra))) ∧
    (∀ (d : Nat) (s rest : List Char),
      readElements fuel d s = .ok rest →
      readElements fuel d (s ++ extra) = .ok (rest ++ extra)) ∧
    (∀ (d : Nat) (s : List Char) (ms : List (String × JValue)) (rest : List Char),
      readMembers fuel d s = .ok (ms, rest) →
      readMembers fuel d (s ++ extra) = .ok (ms, rest ++ extra)) := by
  induction fuel with
  | zero =>
    refine ⟨?_, ?_, ?_⟩
    · intro d s v c r h; rw [readValue.eq_def] at h; cases h
    · intro d s rest h; rw [readElements.eq_def] at h; cases h
    · intro d s ms rest h; rw [readMembers.eq_def] at h; cases h
  | succ f ih =>
    obtain ⟨ihV, ihE, ihM⟩ := ih
    refine ⟨?_, ?_, ?_⟩
    · intro d s v c r h
      rw [readValue.eq_def] at h ⊢
      dsimp only at h ⊢
      split at h
      · cases h
      · rename_i c0 r0 hs
        rw [skipSpace_append _ _ _ extra hs]
        dsimp only
        split at h
        · rename_i hc
          rw [if_pos hc]
          split at h
          · cases h
          · rename_i hdep
            rw [if_neg hdep]
            split at h
            · cases h
            · rename_i c1 r1 hs1
              rw [skipSpace_append _ _ _ extra hs1]
              dsimp only
              split at h
              · rename_i hc1
                rw [if_pos hc1]
                simp only [Except.ok.injEq, Prod.mk.injEq] at h
                rw [← h.1, h.2]
                rfl
              · rename_i hc1
                rw [if_neg hc1]
                obtain ⟨ms, h1, h2⟩ := map_snd_ok (fun _ => JValue.object) _ _ _ h
                have := ihM _ _ _ _ h1
                rw [List.cons_append] at this
                rw [this, h2]
                rfl
        · rename_i hc
          rw [if_neg hc]
          split at h
          · rename_i hb
            rw [if_pos hb]
            split at h
            · cases h
            · rename_i hdep
              rw [if_neg hdep]
              split at h
              · cases h
              · rename_i c1 r1 hs1
                rw [skipSpace_append _ _ _ extra hs1]
                dsimp only
                split at h
                · rename_i hc1
                  rw [if_pos hc1]
                  simp only [Except.ok.injEq, Prod.mk.injEq] at h
                  rw [← h.1, h.2]
                  rfl
                · rename_i hc1
                  rw [if_neg hc1]
                  obtain ⟨h1, h2⟩ := map_pair_ok _ _ _ _ h
                  have := ihE _ _ _ h1
                  rw [List.cons_append] at this
                  rw [this, h2]
                  rfl
          · rename_i hb
            rw [if_neg hb]
            split at h
            · rename_i hq
              rw [if_pos hq]
              obtain ⟨cs, h1, h2⟩ := map_snd_ok (fun x => JValue.string (String.mk x)) _ _ _ h
              rw [readString_append _ _ _ _ extra h1, h2]
              rfl
            · rename_i hq
              rw [if_neg hq]
              split at h
              · rename_i hn
                rw [if_pos hn]
                obtain ⟨lit, h1, h2⟩ := map_snd_ok (fun x => JValue.number x) _ _ _ h
                have := readNumber_append _ _ _ _ extra h1
                rw [List.cons_append] at this
                rw [this, h2]
                rfl
              · rename_i hn
                rw [if_neg hn]
                split at h
                · rename_i ht
                  rw [if_pos ht]
                  obtain ⟨h1, h2⟩ := map_pair_ok _ _ _ _ h
                  rw [readName_append _ _ _ extra h1, h2]
                  rfl
                · rename_i ht
                  rw [if_neg ht]
                  split at h
                  · rename_i hf
                    rw [if_pos hf]
                    obtain ⟨h1, h2⟩ := map_pair_ok _ _ _ _ h
                    rw [readName_append _ _ _ extra h1, h2]
                    rfl
                  · rename_i hf
                    rw [if_neg hf]
                    split at h
                    · rename_i hnl
                      rw [if_pos hnl]
                      obtain ⟨h1, h2⟩ := map_pair_ok _ _ _ _ h
                      rw [readName_append _ _ _ extra h1, h2]
                      rfl
                    · cases h
    · intro d s rest h
      rw [readElements.eq_def] at h ⊢
      dsimp only at h ⊢
      split at h
      · cases h
      · rename_i v r hv
        split at h
        · cases h
        · rename_i c r1 hs
          have hl := skipSpace_cons_length _ _ _ hs
          obtain ⟨c0, r0, rfl⟩ := exists_cons_of_length_pos r (by omega)
          rw [ihV _ _ _ _ _ hv]
          dsimp only
          have := skipSpace_append _ _ _ extra hs
          rw [List.cons_append] at this
          rw [this]
          dsimp only
          split at h
          · rename_i hc
            rw [if_pos hc]
            exact ihE _ _ _ h
          · rename_i hc
            rw [if_neg hc]
            split at h
            · rename_i hc2
              rw [if_pos hc2]
              simp only [Except.ok.injEq] at h
              rw [h]
            · cases h
    · intro d s ms rest h
      rw [readMembers.eq_def] at h ⊢
      dsimp only at h ⊢
      split at h
      · cases h
      · rename_i q aq
        rw [List.cons_append]
        dsimp only
        split at h
        · rename_i hq
          rw [if_pos hq]
          split at h
          · cases h
          · rename_i key r hk
            rw [readString_append _ _ _ _ extra hk]
            dsimp only
            split at h
            · cases h
            · rename_i colon r1 hs
              rw [skipSpace_append _ _ _ extra hs]
              dsimp only
              split at h
              · rename_i hcol
                rw [if_pos hcol]
                split at h
                · cases h
                · rename_i v r2 hv
                  split at h
                  · cases h
                  · rename_i c r3 hs3
                    have hl := skipSpace_cons_length _ _ _ hs3
                    obtain ⟨c0, r0, rfl⟩ := exists_cons_of_length_pos r2 (by omega)
                    rw [ihV _ _ _ _ _ hv]
                    dsimp only
                    have := skipSpace_append _ _ _ extra hs3
                    rw [List.cons_append] at this
                    rw [this]
                    dsimp only
                    split at h
                    · rename_i hc
                      rw [if_pos hc]
                      obtain ⟨ms1, h1, h2⟩ :=
                        map_snd_ok (fun x => (String.mk key, v) :: x) _ _ _ h
                      have hl2 := (readers_rest f).2.2 _ _ _ _ h1
                      cases hsk : skipSpace r3 with
                      | nil =>
                        rw [hsk] at h1
                        cases f with
                        | zero => rw [readMembers.eq_def] at h1; cases h1
                        | succ f2 => rw [readMembers.eq_def] at h1; cases h1
                      | cons c4 r4 =>
                        rw [skipSpace_append _ _ _ extra hsk]
                        rw [hsk] at h1
                        have := ihM _ _ _ _ h1
                        rw [List.cons_append] at this
                        rw [this, h2]
                        rfl
                    · rename_i hc
                      rw [if_neg hc]
                      split at h
                      · rename_i hc2
                        rw [if_pos hc2]
                        simp only [Except.ok.injEq, Prod.mk.injEq] at h
                        rw [← h.1, h.2]
                      · cases h
              · cases h
        · cases h

/-- A leading object reads the same with text appended to the body, for any fuel. -/
theorem readTopWith_append (fuel : Nat) (body extra : List Char)
    (ms : List (String × JValue)) (h : readTopWith fuel body = .ok (.object ms)) :
    readTopWith fuel (body ++ extra) = .ok (.object ms) := by
  unfold readTopWith at h ⊢
  split at h
  · cases h
  · rename_i c rest hs
    rw [skipSpace_append _ _ _ extra hs]
    dsimp only
    split at h
    · rename_i hc
      rw [if_pos hc]
      split at h
      · cases h
      · rename_i c1 rest1 hs1
        rw [skipSpace_append _ _ _ extra hs1]
        dsimp only
        split at h
        · rename_i hc1
          rw [if_pos hc1]
          exact h
        · rename_i hc1
          rw [if_neg hc1]
          cases hm : readMembers fuel 1 (c1 :: rest1) with
          | error e => rw [hm] at h; cases h
          | ok p =>
            obtain ⟨ms1, r1⟩ := p
            rw [hm] at h
            have := (readers_append extra fuel).2.2 _ _ _ _ hm
            rw [List.cons_append] at this
            rw [this]
            exact h
    · rename_i hc
      cases hv : readValue fuel 0 (c :: rest) with
      | error e => rw [hv] at h; cases h
      | ok p => rw [hv] at h; simp [Except.map] at h

/-- Text after a complete leading object is not examined: the body with the text
appended reads as the same object. -/
theorem readTop_append_object (body extra : List Char) (ms : List (String × JValue))
    (h : readTop body = .ok (.object ms)) :
    readTop (body ++ extra) = .ok (.object ms) := by
  have h1 : readTopWith (2 * body.length + 1 + 2 * extra.length) body = .ok (.object ms) := by
    rw [readTopWith_fuel]; exact h
  have h2 := readTopWith_append _ _ extra _ h1
  have hf : 2 * (body ++ extra).length + 1 = 2 * body.length + 1 + 2 * extra.length := by
    rw [List.length_append]; omega
  unfold readTop
  rw [hf]
  exact h2

/-- The handler treats a body that starts with a complete object, followed by any text,
as it treats the body without that text. -/
theorem handler_append_object (st : World) (w : ResponseWriter) (method uri : String)
    (body extra : List Char) (ms : List (String × JValue))
    (h : readTop body = .ok (.object ms)) :
    handler st w ⟨method, uri, body ++ extra⟩ = handler st w ⟨method, uri, body⟩ := by
  have h2 := readTop_append_object body extra ms h
  have hm : decodeBackupMetrics (body ++ extra) = decodeBackupMetrics body := by
    unfold decodeBackupMetrics; rw [h, h2]
  have hi : decodeInfo (body ++ extra) = decodeInfo body := by
    unfold decodeInfo; rw [h, h2]
  unfold handler
  simp only [hm, hi]

/-! ## Properties of the handler -/

/-- Members none of which addresses the field `Cluster` leave an `Info` as it is. -/
theorem storeMembers_Info_absent (members : List (String × JValue)) (info : Info)
    (h : ∀ kv ∈ members, findField ["Cluster"] kv.1 = none) :
    storeMembers Info.store members info = .ok info := by
  induction members with
  | nil => rfl
  | cons kv rest ih =>
    have h1 : Info.store info kv = .ok info := by
      unfold Info.store
      rw [h kv (List.mem_cons_self _ _)]
    unfold storeMembers
    rw [h1]
    exact ih (fun x hx => h x (List.mem_cons_of_mem _ hx))

/-- What the handler does with a request that is not the health check, by the outcome
of the two decodes. -/
theorem handler_cases (st : World) (w : ResponseWriter) (r : Request)
    (hh : ¬(r.Method = "GET" ∧ r.RequestURI = "/healthz")) :
    handler st w r =
      match decodeBackupMetrics r.Body with
      | .error err =>
        ({ st with stdout := st.stdout ++ ["qua\n"], logged := st.logged ++ [err] },
          httpError w "Bad request" StatusBadRequest)
      | .ok metrics =>
        match decodeInfo r.Body with
        | .error err =>
          ({ st with stdout := st.stdout ++ ["qua\n"], logged := st.logged ++ [err] },
            httpError w "Bad request" StatusBadRequest)
        | .ok info =>
          ({ st with stdout := st.stdout ++ ["qua\n"],
                     registry := recordMetrics st.registry info.Cluster metrics },
            Fprint w "OK") := by
  unfold handler
  simp only [if_neg hh]

/-- The response `http.Error` writes to a fresh writer for the handler's message. -/
theorem httpError_fresh :
    httpError ResponseWriter.fresh "Bad request" StatusBadRequest
      = ⟨some 400, "Bad request\n"⟩ := by
  decide

/-- The response `fmt.Fprint(w, "OK")` writes to a fresh writer. -/
theorem Fprint_fresh : Fprint ResponseWriter.fresh "OK" = ⟨some 200, "OK"⟩ := by
  decide

/-- C3: for a request that is not the health check and whose body decodes into the
bundle `m` and into the envelope `info`, the handler answers 200 with body `OK`, and the
registry afterwards is `recordMetrics` applied once to the registry before, the
envelope's `Cluster` and `m`; when the body is an object none of whose keys addresses
the field `Cluster`, that label is the empty string. -/
theorem handler_records (st : World) (r : Request) (m : BackupMetrics) (info : Info)
    (hh : ¬(r.Method = "GET" ∧ r.RequestURI = "/healthz"))
    (hm : decodeBackupMetrics r.Body = .ok m) (hi : decodeInfo r.Body = .ok info) :
    (handler st ResponseWriter.fresh r).2 = ⟨some 200, "OK"⟩ ∧
    (handler st ResponseWriter.fresh r).1.registry = recordMetrics st.registry info.Cluster m ∧
    (∀ members : List (String × JValue), readTop r.Body = .ok (.object members) →
      (∀ kv ∈ members, findField ["Cluster"] kv.1 = none) → info.Cluster = "") := by
  rw [handler_cases st _ r hh, hm, hi]
  refine ⟨Fprint_fresh, rfl, ?_⟩
  intro members hr hk
  have h2 : decodeInfo r.Body = .ok ⟨""⟩ := by
    unfold decodeInfo
    rw [hr]
    exact storeMembers_Info_absent members _ hk
  rw [hi] at h2
  injection h2 with h3
  rw [h3]

/-- Witness of C3: the example report of the spec is answered 200 `OK` and sets the size
gauge of `mycluster` to 1024; a report without `Cluster` is recorded under the empty
label. -/
theorem handler_records_witness :
    (handler ⟨Registry.empty, [], []⟩ ResponseWriter.fresh
      ⟨"POST", "/", exampleReport⟩).2
      = ⟨some 200, "OK"⟩ ∧
    (handler ⟨Registry.empty, [], []⟩ ResponseWriter.fresh
      ⟨"POST", "/", exampleReport⟩).1.registry.backupSize.series
      "mycluster" = some 1024 ∧
    (handler ⟨Registry.empty, [], []⟩ ResponseWriter.fresh
      ⟨"PUT", "/report", failedReportWithoutCluster⟩).1.registry
      = recordMetrics Registry.empty "" ⟨false, 0, 0, 0, 0⟩ := by
  have h := handler_records ⟨Registry.empty, [], []⟩
    ⟨"POST", "/", exampleReport⟩
    ⟨true, 1024, 50, 30, 200⟩ ⟨"mycluster"⟩ (by decide!) (by decide!) (by decide!)
  have h2 := handler_records ⟨Registry.empty, [], []⟩
    ⟨"PUT", "/report", failedReportWithoutCluster⟩
    ⟨false, 0, 0, 0, 0⟩ ⟨""⟩ (by decide!) (by decide!) (by decide!)
  refine ⟨h.1, ?_, h2.2.1⟩
  rw [h.2.1]
  decide!

/-- C4, as stated, fails: a body with text after a leading JSON value is answered 200
`OK` and is recorded (the attempt counter of the empty label goes from absent to 1); and
the body of the 400 answer to an empty body is the message followed by a newline. -/
theorem handler_trailing_text_recorded :
    (handler ⟨Registry.empty, [], []⟩ ResponseWriter.fresh
      ⟨"POST", "/", reportWithTrailingText⟩).2 = ⟨some 200, "OK"⟩ ∧
    (handler ⟨Registry.empty, [], []⟩ ResponseWriter.fresh
      ⟨"POST", "/", reportWithTrailingText⟩).1.registry.attemptsCounter.series ""
      = some 1 ∧
    Registry.empty.attemptsCounter.series "" = none ∧
    (handler ⟨Registry.empty, [], []⟩ ResponseWriter.fresh ⟨"POST", "/", []⟩).2
      = ⟨some 400, "Bad request\n"⟩ ∧
    (handler ⟨Registry.empty, [], []⟩ ResponseWriter.fresh ⟨"POST", "/", []⟩).2.body
      ≠ "Bad request" := by
  decide!

/-- C4, amended: for a request that is not the health check and whose body does not
start with a complete, well-formed JSON value (reading the first value fails with `e`),
the handler answers 400 with the body `Bad request` followed by a newline, logs `e`, and
leaves the registry as it was.  Text after a complete leading JSON object is not
examined: the request with such text appended to its body is handled exactly as the
request itself. -/
theorem handler_malformed (st : World) (r : Request) :
    (∀ e : DecodeError,
      ¬(r.Method = "GET" ∧ r.RequestURI = "/healthz") →
      readTop r.Body = .error e →
      (handler st ResponseWriter.fresh r).2 = ⟨some 400, "Bad request\n"⟩ ∧
      (handler st ResponseWriter.fresh r).1.registry = st.registry ∧
      (handler st ResponseWriter.fresh r).1.logged = st.logged ++ [e]) ∧
    (∀ (extra : List Char) (members : List (String × JValue)),
      readTop r.Body = .ok (.object members) →
      handler st ResponseWriter.fresh ⟨r.Method, r.RequestURI, r.Body ++ extra⟩
        = handler st ResponseWriter.fresh r) := by
  constructor
  · intro e hh he
    have hm : decodeBackupMetrics r.Body = .error e := by
      unfold decodeBackupMetrics
      rw [he]
    rw [handler_cases st _ r hh, hm]
    exact ⟨httpError_fresh, rfl, rfl⟩
  · intro extra members hr
    exact handler_append_object st _ r.Method r.RequestURI r.Body extra members hr

/-- Witness of C4, amended: an empty body, a body cut short, and the object
`{"Successful":true}` with and without the text `xyz` after it. -/
theorem handler_malformed_witness :
    readTop [] = .error .eof ∧
    (handler ⟨Registry.empty, [], []⟩ ResponseWriter.fresh ⟨"POST", "/", []⟩).1.logged
      = [.eof] ∧
    readTop truncatedReport = .error .unexpectedEOF ∧
    (handler ⟨Registry.empty, [], []⟩ ResponseWriter.fresh
      ⟨"POST", "/", truncatedReport⟩).2 = ⟨some 400, "Bad request\n"⟩ ∧
    handler ⟨Registry.empty, [], []⟩ ResponseWriter.fresh
        ⟨"POST", "/", successReport ++ ['x', 'y', 'z']⟩
      = handler ⟨Registry.empty, [], []⟩ ResponseWriter.fresh ⟨"POST", "/", successReport⟩ :=
  ⟨by decide!,
   ((handler_malformed ⟨Registry.empty, [], []⟩ ⟨"POST", "/", []⟩).1 .eof
     (by decide!) (by decide!)).2.2,
   by decide!,
   ((handler_malformed ⟨Registry.empty, [], []⟩ ⟨"POST", "/", truncatedReport⟩).1
     .unexpectedEOF (by decide!) (by decide!)).1,
   (handler_malformed ⟨Registry.empty, [], []⟩ ⟨"POST", "/", successReport⟩).2
     ['x', 'y', 'z'] [("Successful", .bool true)] (by decide!)⟩

/-- C5, as stated, fails: a GET request for the path `/healthz` with a query string and
an empty body is answered 400, not 200 `OK`. -/
theorem handler_healthz_query_rejected :
    requestPath "/healthz?probe=1" = "/healthz" ∧
    (handler ⟨Registry.empty, [], []⟩ ResponseWriter.fresh
      ⟨"GET", "/healthz?probe=1", []⟩).2 = ⟨some 400, "Bad request\n"⟩ := by
  decide!

/-- C5, amended: for a request with method GET whose request target is exactly
`/healthz` (no query string), the handler answers 200 with body `OK` whatever the body
is; the body is not decoded: the registry and the log are unchanged and the outcome is
the same for every body. -/
theorem handler_healthz (st : World) (r : Request)
    (hm : r.Method = "GET") (hu : r.RequestURI = "/healthz") :
    (handler st ResponseWriter.fresh r).2 = ⟨some 200, "OK"⟩ ∧
    (handler st ResponseWriter.fresh r).1.registry = st.registry ∧
    (handler st ResponseWriter.fresh r).1.logged = st.logged ∧
    (∀ body : List Char,
      handler st ResponseWriter.fresh ⟨r.Method, r.RequestURI, body⟩
        = handler st ResponseWriter.fresh r) := by
  have h : ∀ body : List Char, handler st ResponseWriter.fresh ⟨r.Method, r.RequestURI, body⟩
      = ({ st with stdout := st.stdout ++ ["qua\n"] }, Fprint ResponseWriter.fresh "OK") := by
    intro body
    unfold handler
    simp only [hm, hu, and_self, if_true]
  have h0 := h r.Body
  rw [show (⟨r.Method, r.RequestURI, r.Body⟩ : Request) = r from rfl] at h0
  refine ⟨?_, ?_, ?_, ?_⟩
  · rw [h0]; exact Fprint_fresh
  · rw [h0]
  · rw [h0]
  · intro body; rw [h body, h0]

/-- Witness of C5, amended: health checks with a malformed body and with a valid
report. -/
theorem handler_healthz_witness :
    (handler ⟨Registry.empty, [], []⟩ ResponseWriter.fresh
      ⟨"GET", "/healthz", notJSONBody⟩).2 = ⟨some 200, "OK"⟩ ∧
    (handler ⟨Registry.empty, [], []⟩ ResponseWriter.fresh
      ⟨"GET", "/healthz", shortReport⟩).1.registry
      = Registry.empty :=
  ⟨(handler_healthz ⟨Registry.empty, [], []⟩ ⟨"GET", "/healthz", notJSONBody⟩
      rfl rfl).1,
   (handler_healthz ⟨Registry.empty, [], []⟩
      ⟨"GET", "/healthz", shortReport⟩
      rfl rfl).2.1⟩

/-- C9, as stated, fails in the body of the answer only: for the object
`{"Cluster":5}`, which decodes into the bundle and not into the envelope, the answer is
400 and its body is the message followed by a newline. -/
theorem handler_envelope_failure_body :
    decodeBackupMetrics numericClusterBody = .ok ⟨false, 0, 0, 0, 0⟩ ∧
    decodeInfo numericClusterBody = .error (.typeMismatch "number" "Cluster") ∧
    (handler ⟨Registry.empty, [], []⟩ ResponseWriter.fresh
      ⟨"POST", "/", numericClusterBody⟩).2.status = some 400 ∧
    (handler ⟨Registry.empty, [], []⟩ ResponseWriter.fresh
      ⟨"POST", "/", numericClusterBody⟩).2.body = "Bad request\n" ∧
    (handler ⟨Registry.empty, [], []⟩ ResponseWriter.fresh
      ⟨"POST", "/", numericClusterBody⟩).2.body ≠ "Bad request" := by
  decide!

/-- C9, amended: for a request that is not the health check, whose body decodes into
the bundle and fails to decode into the envelope, the handler answers 400 with the body
`Bad request` followed by a newline and leaves the registry as it was: the decoded
bundle is not recorded and no counter moves.  For every request, the registry changes
exactly when the request is not the health check and both decodes succeed. -/
theorem handler_no_partial_recording (st : World) (r : Request) :
    (∀ (m : BackupMetrics) (e : DecodeError),
      ¬(r.Method = "GET" ∧ r.RequestURI = "/healthz") →
      decodeBackupMetrics r.Body = .ok m → decodeInfo r.Body = .error e →
      (handler st ResponseWriter.fresh r).2 = ⟨some 400, "Bad request\n"⟩ ∧
      (handler st ResponseWriter.fresh r).1.registry = st.registry ∧
      (handler st ResponseWriter.fresh r).1.logged = st.logged ++ [e]) ∧
    ((handler st ResponseWriter.fresh r).1.registry ≠ st.registry ↔
      (¬(r.Method = "GET" ∧ r.RequestURI = "/healthz") ∧
        ∃ (m : BackupMetrics) (info : Info),
          decodeBackupMetrics r.Body = .ok m ∧ decodeInfo r.Body = .ok info)) := by
  constructor
  · intro m e hh hm hi
    rw [handler_cases st _ r hh, hm, hi]
    exact ⟨httpError_fresh, rfl, rfl⟩
  · by_cases hh : r.Method = "GET" ∧ r.RequestURI = "/healthz"
    · have h0 : (handler st ResponseWriter.fresh r).1.registry = st.registry := by
        unfold handler
        simp only [hh, and_self, if_true]
      constructor
      · intro hne; exact absurd h0 hne
      · intro hc; exact absurd hh hc.1
    · rw [handler_cases st _ r hh]
      cases hm : decodeBackupMetrics r.Body with
      | error e =>
        constructor
        · intro hne; exact absurd rfl hne
        · rintro ⟨_, m, info, h1, _⟩; cases h1
      | ok m =>
        cases hi : decodeInfo r.Body with
        | error e =>
          constructor
          · intro hne; exact absurd rfl hne
          · rintro ⟨_, m1, info, _, h2⟩; cases h2
        | ok info =>
          constructor
          · intro _; exact ⟨hh, m, info, rfl, rfl⟩
          · intro _; exact recordMetrics_ne _ _ _

/-- Witness of C9, amended: the object `{"Successful":true,"Cluster":5}` decodes into
the bundle, fails to decode into the envelope, and leaves the registry unchanged. -/
theorem handler_no_partial_recording_witness :
    decodeBackupMetrics reportWithNumericCluster = .ok ⟨true, 0, 0, 0, 0⟩ ∧
    decodeInfo reportWithNumericCluster
      = .error (.typeMismatch "number" "Cluster") ∧
    (handler ⟨Registry.empty, [], []⟩ ResponseWriter.fresh
      ⟨"POST", "/", reportWithNumericCluster⟩).1.registry
      = Registry.empty :=
  ⟨by decide!, by decide!,
   ((handler_no_partial_recording ⟨Registry.empty, [], []⟩
      ⟨"POST", "/", reportWithNumericCluster⟩).1
      ⟨true, 0, 0, 0, 0⟩ (.typeMismatch "number" "Cluster")
      (by decide!) (by decide!) (by decide!)).2.1⟩

/-! ## Reading back what the encoder writes -/

/-- Every digit of the encoder reads back as its value. -/
theorem hexVal_hexDigit (k : Nat) (h : k < 16) : hexVal (hexDigit k) = some k := by
  interval_cases k <;> decide

/-- A character is determined by its code point. -/
theorem char_eq_of_toNat (c : Char) (n : Nat) (h : c.toNat = n) : c = Char.ofNat n := by
  rw [← h, Char.ofNat_toNat]

/-- Reading a one-letter escape. -/
theorem readString_escape2 (fuel : Nat) (e x : Char) (tail : List Char)
    (he : e ≠ 'u') (hx : escapeChar e = some x) :
    readString (fuel + 1) ('\\' :: e :: tail)
      = (readString fuel tail).map fun p => (x :: p.1, p.2) := by
  rw [readString]
  simp [he, hx]

/-- Reading a character that stands for itself. -/
theorem readString_plain (fuel : Nat) (c : Char) (tail : List Char)
    (h1 : c ≠ '"') (h2 : c ≠ '\\') (h3 : ¬ c.toNat < 0x20) :
    readString (fuel + 1) (c :: tail)
      = (readString fuel tail).map fun p => (c :: p.1, p.2) := by
  simp only [readString]
  simp [h1, h2, h3]

/-- Reading an escape of the form written for a control character. -/
theorem readString_u00 (fuel : Nat) (n : Nat) (tail : List Char) (h : n < 256) :
    readString (fuel + 1)
        ('\\' :: 'u' :: '0' :: '0' :: hexDigit (n / 16) :: hexDigit (n % 16) :: tail)
      = (readString fuel tail).map fun p => (Char.ofNat n :: p.1, p.2) := by
  rw [readString]
  have h1 : hexVal (hexDigit (n / 16)) = some (n / 16) := hexVal_hexDigit _ (by omega)
  have h2 : hexVal (hexDigit (n % 16)) = some (n % 16) := hexVal_hexDigit _ (by omega)
  have h0 : hexVal '0' = some 0 := by decide
  have hv : n / 16 * 16 + n % 16 = n := by omega
  have hs : ¬(55296 ≤ n ∧ n < 57344) := by omega
  simp [readHex4, h0, h1, h2, hv, hs]

/-- Reading an escape of four hexadecimal digits that is not a surrogate. -/
theorem readString_uHex (fuel a b c d : Nat) (tail : List Char)
    (ha : a < 16) (hb : b < 16) (hc : c < 16) (hd : d < 16)
    (hs : ¬(0xD800 ≤ ((a * 16 + b) * 16 + c) * 16 + d ∧ ((a * 16 + b) * 16 + c) * 16 + d < 0xE000)) :
    readString (fuel + 1)
        ('\\' :: 'u' :: hexDigit a :: hexDigit b :: hexDigit c :: hexDigit d :: tail)
      = (readString fuel tail).map fun p =>
          (Char.ofNat (((a * 16 + b) * 16 + c) * 16 + d) :: p.1, p.2) := by
  rw [readString]
  simp only [readHex4, hexVal_hexDigit _ ha, hexVal_hexDigit _ hb, hexVal_hexDigit _ hc,
    hexVal_hexDigit _ hd]
  simp [hs]

/-- What the encoder writes for one character reads back as that character. -/
theorem readString_quoteChar (fuel : Nat) (c : Char) (tail : List Char) :
    readString (fuel + 1) (quoteChar c ++ tail)
      = (readString fuel tail).map fun p => (c :: p.1, p.2) := by
  unfold quoteChar
  split_ifs with h1 h2 h3 h4 h5 h6 h7 h8
  · rcases h1 with h | h <;> subst h <;> exact readString_escape2 _ _ _ _ (by decide) (by decide)
  · rw [char_eq_of_toNat c 8 h2]
    exact readString_escape2 _ _ _ _ (by decide) (by decide)
  · rw [char_eq_of_toNat c 12 h3]
    exact readString_escape2 _ _ _ _ (by decide) (by decide)
  · subst h4; exact readString_escape2 _ _ _ _ (by decide) (by decide)
  · subst h5; exact readString_escape2 _ _ _ _ (by decide) (by decide)
  · subst h6; exact readString_escape2 _ _ _ _ (by decide) (by decide)
  · have hn : c.toNat < 256 := by
      rcases h7 with h | h | h | h
      · omega
      · subst h; decide
      · subst h; decide
      · subst h; decide
    have := readString_uHex fuel 0 0 (c.toNat / 16) (c.toNat % 16) tail (by omega) (by omega)
      (by omega) (by omega) (by omega)
    have hv : ((0 * 16 + 0) * 16 + c.toNat / 16) * 16 + c.toNat % 16 = c.toNat := by omega
    rw [hv, Char.ofNat_toNat] at this
    exact this
  · have := readString_uHex fuel 2 0 2 (c.toNat % 16) tail (by omega) (by omega)
      (by omega) (by omega) (by omega)
    have hv : ((2 * 16 + 0) * 16 + 2) * 16 + c.toNat % 16 = c.toNat := by omega
    rw [hv, Char.ofNat_toNat] at this
    exact this
  · have g1 : c ≠ '"' := fun h => h1 (Or.inl h)
    have g2 : c ≠ '\\' := fun h => h1 (Or.inr h)
    have g3 : ¬ c.toNat < 0x20 := fun h => h7 (Or.inl h)
    exact readString_plain _ _ _ g1 g2 g3

/-- What the encoder writes for a string, up to the closing quote, reads back as that
string. -/
theorem readString_quoted (cs : List Char) (tail : List Char) (fuel : Nat)
    (h : cs.length < fuel) :
    readString fuel (cs.flatMap quoteChar ++ '"' :: tail) = .ok (cs, tail) := by
  induction cs generalizing fuel with
  | nil =>
    obtain ⟨f, rfl⟩ : ∃ f, fuel = f + 1 := ⟨fuel - 1, by simp at h; omega⟩
    simp [readString]
  | cons c cs ih =>
    obtain ⟨f, rfl⟩ : ∃ f, fuel = f + 1 := ⟨fuel - 1, by simp at h; omega⟩
    have hl : cs.length < f := by simp at h; omega
    rw [List.flatMap_cons, List.append_assoc, readString_quoteChar, ih f hl]
    rfl

/-- Value of a run of decimal digits with one more digit, as `parseInt64` computes it. -/
theorem digitsValue_append (xs : List Char) (d : Char) (a : Nat) :
    (xs ++ [d]).foldl (fun acc c => acc * 10 + (c.toNat - '0'.toNat)) a
      = xs.foldl (fun acc c => acc * 10 + (c.toNat - '0'.toNat)) a * 10 + (d.toNat - '0'.toNat) := by
  simp [List.foldl_append]

/-- The digits of a number are written in front of the accumulator. -/
theorem natDigits_acc (fuel n : Nat) (acc : List Char) :
    natDigits fuel n acc = natDigits fuel n [] ++ acc := by
  induction fuel generalizing n acc with
  | zero => simp [natDigits]
  | succ f ih =>
    simp only [natDigits]
    split
    · simp
    · rw [ih (n / 10) (Char.ofNat ('0'.toNat + n % 10) :: acc),
        ih (n / 10) [Char.ofNat ('0'.toNat + n % 10)]]
      simp

/-- The characters of the ten digits. -/
theorem digitChar_facts (k : Nat) (h : k < 10) :
    isDigit (Char.ofNat ('0'.toNat + k)) = true ∧
    (Char.ofNat ('0'.toNat + k)).toNat - '0'.toNat = k ∧
    (Char.ofNat ('0'.toNat + k) = '0' → k = 0) ∧
    Char.ofNat ('0'.toNat + k) ≠ '-' := by
  interval_cases k <;> decide

/-- The decimal digits of a number: at least one, all digits, no leading zero except for
zero itself, and their value is the number. -/
theorem natDigits_spec (fuel n : Nat) (h : n < fuel) :
    ∃ (d : Char) (tl : List Char), natDigits fuel n [] = d :: tl ∧
      isDigit d = true ∧ d ≠ '-' ∧ (d = '0' → n = 0 ∧ tl = []) ∧
      tl.all isDigit = true ∧
      (d :: tl).foldl (fun acc c => acc * 10 + (c.toNat - '0'.toNat)) 0 = n := by
  induction fuel generalizing n with
  | zero => omega
  | succ f ih =>
    simp only [natDigits]
    split
    · rename_i hlt
      obtain ⟨h1, h2, h3, h4⟩ := digitChar_facts (n % 10) (by omega)
      refine ⟨_, [], rfl, h1, h4, ?_, rfl, ?_⟩
      · intro h0; exact ⟨by have := h3 h0; omega, rfl⟩
      · show 0 * 10 + ((Char.ofNat ('0'.toNat + n % 10)).toNat - '0'.toNat) = n
        rw [h2]; omega
    · rename_i hge
      obtain ⟨d, tl, he, hd, hm, hz, ha, hv⟩ := ih (n / 10) (by omega)
      obtain ⟨h1, h2, h3, h4⟩ := digitChar_facts (n % 10) (by omega)
      rw [natDigits_acc, he]
      refine ⟨d, tl ++ [Char.ofNat ('0'.toNat + n % 10)], rfl, hd, hm, ?_, ?_, ?_⟩
      · intro h0; have := (hz h0).1; omega
      · rw [List.all_append, ha]
        show (true && (isDigit (Char.ofNat ('0'.toNat + n % 10)) && true)) = true
        rw [h1]; rfl
      · have : (d :: (tl ++ [Char.ofNat ('0'.toNat + n % 10)]))
            = (d :: tl) ++ [Char.ofNat ('0'.toNat + n % 10)] := rfl
        rw [this, digitsValue_append, hv, h2]
        omega

/-- A run of digits followed by something else is split off whole. -/
theorem spanDigits_append (ds : List Char) (x : Char) (rest : List Char)
    (hall : ds.all isDigit = true) (hx : isDigit x = false) :
    spanDigits (ds ++ x :: rest) = (ds, x :: rest) := by
  induction ds with
  | nil => simp [spanDigits, hx]
  | cons d ds ih =>
    simp only [List.all_cons, Bool.and_eq_true] at hall
    simp [spanDigits, hall.1, ih hall.2]

/-- A run of digits without leading zero reads as one number. -/
theorem readNumber_unsigned (d : Char) (tl : List Char) (x : Char) (rest : List Char)
    (hd : isDigit d = true) (hm : d ≠ '-') (hz : d = '0' → tl = [])
    (ha : tl.all isDigit = true) (hx : endsNumber x) :
    readNumber (d :: tl ++ x :: rest) = .ok (d :: tl, x :: rest) := by
  obtain ⟨hx1, hx2, hx3, hx4⟩ := hx
  have hsp : spanDigits (d :: (tl ++ x :: rest)) = (d :: tl, x :: rest) :=
    spanDigits_append (d :: tl) x rest (by simp [hd, ha]) hx1
  have hint : readIntPart (d :: (tl ++ x :: rest)) = .ok (d :: tl, x :: rest) := by
    unfold readIntPart
    by_cases h0 : d = '0'
    · simp [h0, hz h0]
    · simp [h0, hd, hsp]
  have hfr : readFraction (x :: rest) = .ok ([], x :: rest) := by
    simp [readFraction, hx2]
  have hex : readExponent (x :: rest) = .ok ([], x :: rest) := by
    simp [readExponent, hx3, hx4]
  simp [readNumber, readSign, hm, hint, hfr, hex]

/-- A minus sign and a run of digits without leading zero read as one number. -/
theorem readNumber_signed (d : Char) (tl : List Char) (x : Char) (rest : List Char)
    (hd : isDigit d = true) (hz : d = '0' → tl = [])
    (ha : tl.all isDigit = true) (hx : endsNumber x) :
    readNumber ('-' :: d :: tl ++ x :: rest) = .ok ('-' :: d :: tl, x :: rest) := by
  obtain ⟨hx1, hx2, hx3, hx4⟩ := hx
  have hsp : spanDigits (d :: (tl ++ x :: rest)) = (d :: tl, x :: rest) :=
    spanDigits_append (d :: tl) x rest (by simp [hd, ha]) hx1
  have hint : readIntPart (d :: (tl ++ x :: rest)) = .ok (d :: tl, x :: rest) := by
    unfold readIntPart
    by_cases h0 : d = '0'
    · simp [h0, hz h0]
    · simp [h0, hd, hsp]
  have hfr : readFraction (x :: rest) = .ok ([], x :: rest) := by
    simp [readFraction, hx2]
  have hex : readExponent (x :: rest) = .ok ([], x :: rest) := by
    simp [readExponent, hx3, hx4]
  simp [readNumber, readSign, hint, hfr, hex]

/-- The text of every integer reads back as one number. -/
theorem readNumber_intText (v : Int) (x : Char) (rest : List Char) (hx : endsNumber x) :
    readNumber (intText v ++ x :: rest) = .ok (intText v, x :: rest) := by
  obtain ⟨d, tl, he, hd, hm, hz, ha, _⟩ := natDigits_spec (v.natAbs + 1) v.natAbs (by omega)
  unfold intText
  split
  · rw [he]
    exact readNumber_signed d tl x rest hd (fun h => (hz h).2) ha hx
  · rw [he]
    exact readNumber_unsigned d tl x rest hd hm (fun h => (hz h).2) ha hx

/-- The text of an `int64` parses back to it. -/
theorem parseInt64_intText (v : Int) (h : inInt64 v) : parseInt64 (intText v) = some v := by
  obtain ⟨d, tl, he, hd, hm, hz, ha, hv⟩ := natDigits_spec (v.natAbs + 1) v.natAbs (by omega)
  unfold intText
  split
  · rename_i hneg
    rw [he]
    have hv2 : (-(v.natAbs : Int)) = v := by omega
    simp only [List.foldl_cons, Nat.zero_mul, Nat.zero_add] at hv
    simp [parseInt64, hd, ha]
    simp only [Char.reduceToNat] at hv
    rw [hv, hv2]
    exact ⟨h, rfl⟩
  · rename_i hpos
    rw [he]
    have hv2 : (v.natAbs : Int) = v := by omega
    have hh : ¬ (d = '-') := hm
    simp only [List.foldl_cons, Nat.zero_mul, Nat.zero_add] at hv
    simp [parseInt64, hd, ha, hh]
    simp only [Char.reduceToNat] at hv
    rw [hv, hv2]
    exact ⟨h, rfl⟩

/-- The encoder writes at least one character per character. -/
theorem quoteChar_length_pos (c : Char) : 1 ≤ (quoteChar c).length := by
  unfold quoteChar
  split_ifs <;> simp

/-- The quoted text is at least as long as the string. -/
theorem flatMap_quoteChar_length (cs : List Char) :
    cs.length ≤ (cs.flatMap quoteChar).length := by
  induction cs with
  | nil => simp
  | cons c cs ih =>
    have := quoteChar_length_pos c
    simp only [List.flatMap_cons, List.length_append, List.length_cons]
    omega

/-- The string literal is at least two longer than the string. -/
theorem quoteString_length (s : String) : s.data.length + 2 ≤ (quoteString s).length := by
  have := flatMap_quoteChar_length s.data
  simp only [quoteString, List.length_cons, List.length_append, List.length_nil]
  omega

/-- A comma ends a number. -/
theorem endsNumber_comma : endsNumber ',' := by
  unfold endsNumber; decide

/-- A closing brace ends a number. -/
theorem endsNumber_brace : endsNumber '}' := by
  unfold endsNumber; decide

/-- The text of an integer starts with a minus sign or a digit. -/
theorem intText_head (v : Int) :
    ∃ (c : Char) (tl : List Char), intText v = c :: tl ∧ (c = '-' ∨ isDigit c = true) := by
  obtain ⟨d, tl, he, hd, _, _, _, _⟩ := natDigits_spec (v.natAbs + 1) v.natAbs (by omega)
  unfold intText
  split
  · exact ⟨'-', _, rfl, Or.inl rfl⟩
  · exact ⟨d, tl, he, Or.inr hd⟩

/-- The code points of the digits. -/
theorem isDigit_bounds (c : Char) (h : isDigit c = true) : 48 ≤ c.toNat ∧ c.toNat ≤ 57 := by
  simpa [isDigit] using h

/-- The text of an integer, followed by what ends a number, reads as a number value. -/
theorem readValue_number (fuel depth : Nat) (v : Int) (x : Char) (rest : List Char)
    (hx : endsNumber x) :
    readValue (fuel + 1) depth (intText v ++ x :: rest) = .ok (.number (intText v), x :: rest) := by
  have hn := readNumber_intText v x rest hx
  obtain ⟨c, tl, he, hc⟩ := intText_head v
  rw [he] at hn ⊢
  have hb : c.toNat = 45 ∨ (48 ≤ c.toNat ∧ c.toNat ≤ 57) := by
    rcases hc with h | h
    · left; rw [h]; rfl
    · right; exact isDigit_bounds c h
  have hsp : isSpace c = false := by
    cases hs : isSpace c with
    | false => rfl
    | true =>
      simp only [isSpace, Bool.or_eq_true, decide_eq_true_eq] at hs
      rcases hs with ((h | h) | h) | h <;> rw [h] at hb <;> revert hb <;> decide
  have h1 : c ≠ '{' := by intro h; rw [h] at hb; revert hb; decide
  have h2 : c ≠ '[' := by intro h; rw [h] at hb; revert hb; decide
  have h3 : c ≠ '"' := by intro h; rw [h] at hb; revert hb; decide
  rw [readValue]
  simp only [List.cons_append, skipSpace, hsp]
  simp only [Bool.false_eq_true, if_false, h1, h2, h3]
  rw [if_pos hc]
  rw [List.cons_append] at hn
  have hn2 : readNumber (c :: tl.append (x :: rest)) = .ok (c :: tl, x :: rest) := hn
  rw [hn2]
  rfl

/-- The text of a flat value, followed by a comma or a closing brace, reads back as
that value. -/
theorem readValue_flat (fuel depth : Nat) (v : JValue) (x : Char) (rest : List Char)
    (hv : v.isFlat) (hx : x = ',' ∨ x = '}') (hf : (encodeValue v).length ≤ fuel + 1) :
    readValue (fuel + 1) depth (encodeValue v ++ x :: rest) = .ok (v, x :: rest) := by
  cases v with
  | array => exact absurd hv (by simp [JValue.isFlat])
  | object => exact absurd hv (by simp [JValue.isFlat])
  | null =>
    have hd : isDigit 'n' = false := by decide
    rw [readValue]
    simp [encodeValue, skipSpace, isSpace, readName, hd]
    rfl
  | bool b =>
    have hd1 : isDigit 't' = false := by decide
    have hd2 : isDigit 'f' = false := by decide
    rw [readValue]
    cases b <;> simp [encodeValue, skipSpace, isSpace, readName, hd1, hd2] <;> rfl
  | number lit =>
    obtain ⟨n, rfl⟩ := hv
    have he : endsNumber x := by
      rcases hx with h | h
      · rw [h]; exact endsNumber_comma
      · rw [h]; exact endsNumber_brace
    exact readValue_number fuel depth n x rest he
  | string s =>
    have hl := quoteString_length s
    simp only [encodeValue] at hf
    have hq := readString_quoted s.data (x :: rest) (fuel + 1) (by omega)
    rw [readValue]
    simp only [encodeValue, quoteString, List.cons_append, skipSpace, isSpace]
    simp only [List.append_assoc, List.singleton_append] at hq ⊢
    simp [hq]
    rfl

/-- The text of a single member. -/
theorem encodeMembers_single (kv : String × JValue) :
    encodeMembers [kv] = quoteString kv.1 ++ ':' :: encodeValue kv.2 := rfl

/-- The text of a member that is followed by another one. -/
theorem encodeMembers_cons2 (kv kv2 : String × JValue) (ms : List (String × JValue)) :
    encodeMembers (kv :: kv2 :: ms)
      = quoteString kv.1 ++ ':' :: encodeValue kv.2 ++ ',' :: encodeMembers (kv2 :: ms) := rfl

/-- The text of members starts with the opening quote of the first key. -/
theorem encodeMembers_head (kv : String × JValue) (ms : List (String × JValue)) :
    ∃ tl, encodeMembers (kv :: ms) = '"' :: tl := by
  cases ms with
  | nil => exact ⟨_, rfl⟩
  | cons kv2 ms => exact ⟨_, rfl⟩

/-- Nothing is skipped in front of a character that is not white space. -/
theorem skipSpace_cons (c : Char) (r : List Char) (h : isSpace c = false) :
    skipSpace (c :: r) = c :: r := by
  simp [skipSpace, h]

/-- One member at the head of the input of `readMembers`, followed by `x` (a comma or
the closing brace): the key and the value are read and the reader stands at `x`. -/
theorem readMembers_step (fuel depth : Nat) (k : String) (v : JValue) (x : Char)
    (rest : List Char) (hv : v.isFlat) (hx : x = ',' ∨ x = '}')
    (hk : (quoteString k).length ≤ fuel + 1) (hl : (encodeValue v).length ≤ fuel + 1) :
    readMembers (fuel + 2) depth (quoteString k ++ ':' :: (encodeValue v ++ x :: rest))
      = if x = ',' then
          (readMembers (fuel + 1) depth (skipSpace rest)).map fun p => ((k, v) :: p.1, p.2)
        else .ok ([(k, v)], rest) := by
  have hkl := quoteString_length k
  have hq := readString_quoted k.data (':' :: (encodeValue v ++ x :: rest)) (fuel + 1 + 1)
    (by omega)
  have hval := readValue_flat fuel depth v x rest hv hx hl
  have hxs : isSpace x = false := by
    rcases hx with h | h <;> rw [h] <;> decide
  have hcs : skipSpace (':' :: (encodeValue v ++ x :: rest))
      = ':' :: (encodeValue v ++ x :: rest) := skipSpace_cons _ _ (by decide)
  have hxk : skipSpace (x :: rest) = x :: rest := skipSpace_cons _ _ hxs
  simp only [quoteString, List.cons_append, List.append_assoc, List.singleton_append,
    List.nil_append] at hq ⊢
  rw [readMembers.eq_def]
  simp only [if_true, hq, hcs, hval, hxk]
  rcases hx with h | h
  · subst h
    simp only [if_true]
  · subst h
    simp only [Char.reduceEq, if_false, if_true]

/-- The text of a non-empty list of flat members, followed by the closing brace, reads
back as that list. -/
theorem readMembers_encode (ms : List (String × JValue)) (hne : ms ≠ [])
    (hflat : ∀ kv ∈ ms, kv.2.isFlat) (fuel depth : Nat) (rest : List Char)
    (hf : (encodeMembers ms).length ≤ fuel) :
    readMembers (fuel + 1) depth (encodeMembers ms ++ '}' :: rest) = .ok (ms, rest) := by
  induction ms generalizing fuel with
  | nil => exact absurd rfl hne
  | cons kv ms ih =>
    have hv : kv.2.isFlat := hflat kv (List.mem_cons_self _ _)
    have hkl := quoteString_length kv.1
    cases ms with
    | nil =>
      rw [encodeMembers_single] at hf ⊢
      simp only [List.length_append, List.length_cons] at hf
      obtain ⟨f, rfl⟩ : ∃ f, fuel = f + 1 := ⟨fuel - 1, by omega⟩
      have := readMembers_step f depth kv.1 kv.2 '}' rest hv (Or.inr rfl) (by omega) (by omega)
      simp only [List.append_assoc, List.cons_append] at this ⊢
      rw [this]
      simp
    | cons kv2 ms =>
      rw [encodeMembers_cons2] at hf ⊢
      simp only [List.length_append, List.length_cons] at hf
      obtain ⟨f, rfl⟩ : ∃ f, fuel = f + 1 := ⟨fuel - 1, by omega⟩
      have := readMembers_step f depth kv.1 kv.2 ',' (encodeMembers (kv2 :: ms) ++ '}' :: rest)
        hv (Or.inl rfl) (by omega) (by omega)
      simp only [List.append_assoc, List.cons_append] at this ⊢
      rw [this]
      obtain ⟨tl, htl⟩ := encodeMembers_head kv2 ms
      have hsk : skipSpace (encodeMembers (kv2 :: ms) ++ '}' :: rest)
          = encodeMembers (kv2 :: ms) ++ '}' :: rest := by
        rw [htl]
        simp [skipSpace, isSpace]
      rw [hsk]
      rw [ih (by simp) (fun x hx => hflat x (List.mem_cons_of_mem _ hx)) f (by omega)]
      simp
      rfl

/-- The text of an object with flat members reads back as that object. -/
theorem readTop_encodeObject (ms : List (String × JValue)) (hne : ms ≠ [])
    (hflat : ∀ kv ∈ ms, kv.2.isFlat) :
    readTop (encodeObject ms) = .ok (.object ms) := by
  obtain ⟨kv, ms1, rfl⟩ : ∃ kv ms1, ms = kv :: ms1 := by
    cases ms with
    | nil => exact absurd rfl hne
    | cons kv ms1 => exact ⟨kv, ms1, rfl⟩
  obtain ⟨tl, htl⟩ := encodeMembers_head kv ms1
  have hr := readMembers_encode (kv :: ms1) hne hflat
    (2 * (encodeObject (kv :: ms1)).length) 1 [] (by simp [encodeObject]; omega)
  have h1 : skipSpace (encodeObject (kv :: ms1)) = '{' :: (encodeMembers (kv :: ms1) ++ ['}']) :=
    skipSpace_cons _ _ (by decide)
  have h2 : skipSpace (encodeMembers (kv :: ms1) ++ ['}']) = '"' :: (tl ++ ['}']) := by
    rw [htl]
    exact skipSpace_cons _ _ (by decide)
  have h3 : ('"' :: (tl ++ ['}'])) = encodeMembers (kv :: ms1) ++ ['}'] := by
    rw [htl]; rfl
  unfold readTop readTopWith
  simp only [h1, h2, if_true]
  simp only [Char.reduceEq, if_false]
  rw [h3, hr]
  rfl

/-- The members `json.Marshal` writes for a `bodyType` are flat. -/
theorem bodyType_members_flat (b : bodyType) : ∀ kv ∈ b.members, kv.2.isFlat := by
  intro kv hkv
  simp only [bodyType.members, List.mem_cons, List.mem_singleton, List.not_mem_nil, or_false] at hkv
  rcases hkv with h | h | h | h | h | h <;> subst h
  · trivial
  · trivial
  · exact ⟨_, rfl⟩
  · exact ⟨_, rfl⟩
  · exact ⟨_, rfl⟩
  · exact ⟨_, rfl⟩

/-- The envelope stored from the members of a `bodyType`. -/
theorem storeMembers_Info_body (b : bodyType) :
    storeMembers Info.store b.members ⟨""⟩ = .ok ⟨b.Cluster⟩ := by
  have h1 : findField ["Cluster"] "Cluster" = some "Cluster" := by decide
  have h2 : findField ["Cluster"] "Successful" = none := by decide
  have h3 : findField ["Cluster"] "BackupSizeMeasurement" = none := by decide
  have h4 : findField ["Cluster"] "CreationTimeMeasurement" = none := by decide
  have h5 : findField ["Cluster"] "EncryptionTimeMeasurement" = none := by decide
  have h6 : findField ["Cluster"] "UploadTimeMeasurement" = none := by decide
  simp only [bodyType.members, storeMembers, Info.store, h1, h2, h3, h4, h5, h6, storeString,
    Except.map]

/-- The bundle stored from the members of a `bodyType` whose numbers fit `int64`. -/
theorem storeMembers_BackupMetrics_body (b : bodyType)
    (hs : inInt64 b.BackupSizeMeasurement) (hc : inInt64 b.CreationTimeMeasurement)
    (he : inInt64 b.EncryptionTimeMeasurement) (hu : inInt64 b.UploadTimeMeasurement) :
    storeMembers BackupMetrics.store b.members BackupMetrics.zero
      = .ok ⟨b.Successful, b.BackupSizeMeasurement, b.CreationTimeMeasurement,
          b.EncryptionTimeMeasurement, b.UploadTimeMeasurement⟩ := by
  have h1 : findField BackupMetrics.fields "Cluster" = none := by decide
  have h2 : findField BackupMetrics.fields "Successful" = some "Successful" := by decide
  have h3 : findField BackupMetrics.fields "BackupSizeMeasurement"
      = some "BackupSizeMeasurement" := by decide
  have h4 : findField BackupMetrics.fields "CreationTimeMeasurement"
      = some "CreationTimeMeasurement" := by decide
  have h5 : findField BackupMetrics.fields "EncryptionTimeMeasurement"
      = some "EncryptionTimeMeasurement" := by decide
  have h6 : findField BackupMetrics.fields "UploadTimeMeasurement"
      = some "UploadTimeMeasurement" := by decide
  simp [bodyType.members, storeMembers, BackupMetrics.store, h1, h2, h3, h4, h5, h6,
    storeBool, storeInt64, parseInt64_intText _ hs, parseInt64_intText _ hc,
    parseInt64_intText _ he, parseInt64_intText _ hu, Except.map, BackupMetrics.zero]

/-! ## Properties of the sender -/

/-- C6: whatever `json.Marshal` and `http.Post` do, the boolean `Send` returns is
`true`; the error it returns is nil exactly when the serialization succeeded and the
POST returned a nil error; after a successful serialization the error is the one the POST
returned, as it is, and exactly one POST was made; after a failed serialization the
error is the masked serialization error and no POST was made. -/
theorem Send_result {Config E : Type} (mask : E → E)
    (marshal : bodyType → Except E (List Char)) (post : PostCall → Option E)
    (cfg : Config) (m : BackupMetrics) (name : String) :
    (Send mask marshal post cfg m name).ok = true ∧
    ((Send mask marshal post cfg m name).err = none ↔
      ∃ data : List Char,
        marshal ⟨name, m.Successful, m.BackupSizeMeasurement, m.CreationTimeMeasurement,
          m.EncryptionTimeMeasurement, m.UploadTimeMeasurement⟩ = .ok data ∧
        post ⟨"http://etcd-backup-metrics-collector:8080/", "application/json", data⟩
          = none) ∧
    (∀ data : List Char,
      marshal ⟨name, m.Successful, m.BackupSizeMeasurement, m.CreationTimeMeasurement,
        m.EncryptionTimeMeasurement, m.UploadTimeMeasurement⟩ = .ok data →
      (Send mask marshal post cfg m name).err
        = post ⟨"http://etcd-backup-metrics-collector:8080/", "application/json", data⟩ ∧
      (Send mask marshal post cfg m name).posts
        = [⟨"http://etcd-backup-metrics-collector:8080/", "application/json", data⟩]) ∧
    (∀ e : E,
      marshal ⟨name, m.Successful, m.BackupSizeMeasurement, m.CreationTimeMeasurement,
        m.EncryptionTimeMeasurement, m.UploadTimeMeasurement⟩ = .error e →
      (Send mask marshal post cfg m name).err = some (mask e) ∧
      (Send mask marshal post cfg m name).posts = []) := by
  have hs : Send mask marshal post cfg m name =
      match marshal ⟨name, m.Successful, m.BackupSizeMeasurement, m.CreationTimeMeasurement,
          m.EncryptionTimeMeasurement, m.UploadTimeMeasurement⟩ with
      | .error err => ⟨true, some (mask err), []⟩
      | .ok data =>
        ⟨true, post ⟨"http://etcd-backup-metrics-collector:8080/", "application/json", data⟩,
          [⟨"http://etcd-backup-metrics-collector:8080/", "application/json", data⟩]⟩ := rfl
  rw [hs]
  cases marshal ⟨name, m.Successful, m.BackupSizeMeasurement, m.CreationTimeMeasurement,
      m.EncryptionTimeMeasurement, m.UploadTimeMeasurement⟩ with
  | error e0 =>
    refine ⟨rfl, ?_, ?_, ?_⟩
    · constructor
      · intro h; cases h
      · rintro ⟨data, h, _⟩; cases h
    · intro data h; cases h
    · intro e h
      cases h
      exact ⟨rfl, rfl⟩
  | ok d =>
    refine ⟨rfl, ?_, ?_, ?_⟩
    · constructor
      · intro h; exact ⟨d, rfl, h⟩
      · rintro ⟨data, h, hp⟩
        cases h
        exact hp
    · intro data h
      cases h
      exact ⟨rfl, rfl⟩
    · intro e h; cases h

/-- The three cases of C6 at concrete library behaviours: a failing serialization, a
failing POST and a successful POST. -/
theorem Send_result_witness :
    ((Send (fun e => "masked: " ++ e) (fun _ => .error "unsupported type")
        (fun _ => none) () ⟨true, 1024, 50, 30, 200⟩ "mycluster").ok = true ∧
     (Send (fun e => "masked: " ++ e) (fun _ => .error "unsupported type")
        (fun _ => none) () ⟨true, 1024, 50, 30, 200⟩ "mycluster").err
        = some ("masked: " ++ "unsupported type") ∧
     (Send (fun e => "masked: " ++ e) (fun _ => .error "unsupported type")
        (fun _ => none) () ⟨true, 1024, 50, 30, 200⟩ "mycluster").posts = []) ∧
    ((Send (fun e => "masked: " ++ e) jsonMarshal (fun _ => some "connection refused")
        () ⟨true, 1024, 50, 30, 200⟩ "mycluster").ok = true ∧
     (Send (fun e => "masked: " ++ e) jsonMarshal (fun _ => some "connection refused")
        () ⟨true, 1024, 50, 30, 200⟩ "mycluster").err = some "connection refused") ∧
    ((Send (fun e => "masked: " ++ e) jsonMarshal (fun _ => (none : Option String))
        () ⟨true, 1024, 50, 30, 200⟩ "mycluster").ok = true ∧
     (Send (fun e => "masked: " ++ e) jsonMarshal (fun _ => (none : Option String))
        () ⟨true, 1024, 50, 30, 200⟩ "mycluster").err = none) :=
  ⟨⟨(Send_result _ _ _ _ _ _).1,
    ((Send_result (fun e => "masked: " ++ e) (fun _ => .error "unsupported type")
        (fun _ => none) () ⟨true, 1024, 50, 30, 200⟩ "mycluster").2.2.2
        "unsupported type" rfl).1,
    ((Send_result (fun e => "masked: " ++ e) (fun _ => .error "unsupported type")
        (fun _ => none) () ⟨true, 1024, 50, 30, 200⟩ "mycluster").2.2.2
        "unsupported type" rfl).2⟩,
   ⟨(Send_result _ _ _ _ _ _).1,
    ((Send_result (fun e => "masked: " ++ e) jsonMarshal (fun _ => some "connection refused")
        () ⟨true, 1024, 50, 30, 200⟩ "mycluster").2.2.1 _ rfl).1⟩,
   ⟨(Send_result _ _ _ _ _ _).1,
    ((Send_result (fun e => "masked: " ++ e) jsonMarshal (fun _ => (none : Option String))
        () ⟨true, 1024, 50, 30, 200⟩ "mycluster").2.2.1 _ rfl).1⟩⟩

/-- The body `Send` posts decodes, as the handler decodes it, into the cluster name and
the bundle it was made of. -/
theorem decode_jsonMarshal_body (m : BackupMetrics) (name : String) (h : m.inRange) :
    readTop (encodeObject (bodyType.members ⟨name, m.Successful, m.BackupSizeMeasurement,
        m.CreationTimeMeasurement, m.EncryptionTimeMeasurement, m.UploadTimeMeasurement⟩))
      = .ok (.object (bodyType.members ⟨name, m.Successful, m.BackupSizeMeasurement,
        m.CreationTimeMeasurement, m.EncryptionTimeMeasurement, m.UploadTimeMeasurement⟩)) ∧
    decodeInfo (encodeObject (bodyType.members ⟨name, m.Successful, m.BackupSizeMeasurement,
        m.CreationTimeMeasurement, m.EncryptionTimeMeasurement, m.UploadTimeMeasurement⟩))
      = .ok ⟨name⟩ ∧
    decodeBackupMetrics (encodeObject (bodyType.members ⟨name, m.Successful,
        m.BackupSizeMeasurement, m.CreationTimeMeasurement, m.EncryptionTimeMeasurement,
        m.UploadTimeMeasurement⟩))
      = .ok m := by
  have hr := readTop_encodeObject
    (bodyType.members ⟨name, m.Successful, m.BackupSizeMeasurement,
      m.CreationTimeMeasurement, m.EncryptionTimeMeasurement, m.UploadTimeMeasurement⟩)
    (by simp [bodyType.members]) (bodyType_members_flat _)
  obtain ⟨h1, h2, h3, h4⟩ := h
  refine ⟨hr, ?_, ?_⟩
  · unfold decodeInfo
    rw [hr]
    exact storeMembers_Info_body _
  · unfold decodeBackupMetrics
    rw [hr]
    exact storeMembers_BackupMetrics_body _ h1 h2 h3 h4

/-- C7: with `json.Marshal` as the serializer, `Send` makes exactly one POST, to the
fixed collector URL with content type `application/json`; its body is the text of the
JSON object with exactly the six members `Cluster` (the given cluster name, as a
string), `Successful` (the bundle's flag) and `BackupSizeMeasurement`,
`CreationTimeMeasurement`, `EncryptionTimeMeasurement`, `UploadTimeMeasurement` (the
bundle's fields, as decimal numbers), none of them nested; read back, that text is an
object of exactly these six members, and it decodes into the given cluster name and the
given bundle; the POST is the same for every configuration argument. -/
theorem Send_posts_body {Config E : Type} (mask : E → E) (post : PostCall → Option E)
    (cfg : Config) (m : BackupMetrics) (name : String) (h : m.inRange) :
    ∃ data : List Char,
      (Send mask jsonMarshal post cfg m name).posts
        = [⟨"http://etcd-backup-metrics-collector:8080/", "application/json", data⟩] ∧
      data = encodeObject
        [("Cluster", .string name),
         ("Successful", .bool m.Successful),
         ("BackupSizeMeasurement", .number (intText m.BackupSizeMeasurement)),
         ("CreationTimeMeasurement", .number (intText m.CreationTimeMeasurement)),
         ("EncryptionTimeMeasurement", .number (intText m.EncryptionTimeMeasurement)),
         ("UploadTimeMeasurement", .number (intText m.UploadTimeMeasurement))] ∧
      readTop data = .ok (.object
        [("Cluster", .string name),
         ("Successful", .bool m.Successful),
         ("BackupSizeMeasurement", .number (intText m.BackupSizeMeasurement)),
         ("CreationTimeMeasurement", .number (intText m.CreationTimeMeasurement)),
         ("EncryptionTimeMeasurement", .number (intText m.EncryptionTimeMeasurement)),
         ("UploadTimeMeasurement", .number (intText m.UploadTimeMeasurement))]) ∧
      decodeInfo data = .ok ⟨name⟩ ∧
      decodeBackupMetrics data = .ok m ∧
      (∀ (Config2 : Type) (cfg2 : Config2),
        (Send mask jsonMarshal post cfg2 m name).posts
          = [⟨"http://etcd-backup-metrics-collector:8080/", "application/json", data⟩]) := by
  obtain ⟨h1, h2, h3⟩ := decode_jsonMarshal_body m name h
  exact ⟨_, rfl, rfl, h1, h2, h3, fun _ _ => rfl⟩

/-- Witness of C7: the body posted for the bundle of the spec's example. -/
theorem Send_posts_body_witness :
    (⟨true, 1024, 50, 30, 200⟩ : BackupMetrics).inRange ∧
    ∃ data : List Char,
      (Send (fun e : String => e) jsonMarshal (fun _ => none) () ⟨true, 1024, 50, 30, 200⟩
          "mycluster").posts
        = [⟨"http://etcd-backup-metrics-collector:8080/", "application/json", data⟩] ∧
      data = "\x7b\"Cluster\":\"mycluster\",\"Successful\":true,\"BackupSizeMeasurement\":1024,\"CreationTimeMeasurement\":50,\"EncryptionTimeMeasurement\":30,\"UploadTimeMeasurement\":200\x7d".toList ∧
      decodeInfo data = .ok ⟨"mycluster"⟩ ∧
      decodeBackupMetrics data = .ok ⟨true, 1024, 50, 30, 200⟩ := by
  refine ⟨by decide, ?_⟩
  obtain ⟨data, h1, h2, _, h4, h5, _⟩ :=
    Send_posts_body (fun e : String => e) (fun _ => none) () ⟨true, 1024, 50, 30, 200⟩
      "mycluster" (by decide)
  refine ⟨data, h1, ?_, h4, h5⟩
  rw [h2]
  decide!

/-- What `Send` posts for a bundle, when handled as a report, is answered 200 `OK` and
recorded as that bundle under that cluster name. -/
theorem handler_of_Send_body {Config E : Type} (mask : E → E) (post : PostCall → Option E)
    (cfg : Config) (m : BackupMetrics) (name : String) (h : m.inRange) (st : World)
    (call : PostCall) (hc : call ∈ (Send mask jsonMarshal post cfg m name).posts) :
    (handler st ResponseWriter.fresh ⟨"POST", "/", call.data⟩).2 = ⟨some 200, "OK"⟩ ∧
    (handler st ResponseWriter.fresh ⟨"POST", "/", call.data⟩).1.registry
      = recordMetrics st.registry name m := by
  obtain ⟨_, h2, h3⟩ := decode_jsonMarshal_body m name h
  have hp : (Send mask jsonMarshal post cfg m name).posts
      = [⟨"http://etcd-backup-metrics-collector:8080/", "application/json",
          encodeObject (bodyType.members ⟨name, m.Successful, m.BackupSizeMeasurement,
            m.CreationTimeMeasurement, m.EncryptionTimeMeasurement,
            m.UploadTimeMeasurement⟩)⟩] := rfl
  rw [hp, List.mem_singleton] at hc
  subst hc
  have hh : ¬(("POST" : String) = "GET" ∧ ("/" : String) = "/healthz") := by decide
  rw [handler_cases st _ _ hh]
  simp only [h2, h3]
  exact ⟨Fprint_fresh, trivial⟩

end Metrics
